import Mathlib

namespace GameDataProcessor

/-! Shallow embedding of the game-data processing scripts
(`process_p51_data.py`, `process_game_data.py`, `rocess_mig29_data.py`,
`process_spitfire_data.py`).  Text is modelled as `List Char`; every
Python cleaning step becomes a Lean function on `List Char`. -/

/-- Python `\d` (ASCII part): the decimal digits `0`-`9`. -/
def isAsciiDigit (c : Char) : Bool := 48 ≤ c.toNat && c.toNat ≤ 57

/-- The whitespace set of Python `str.strip` / regex `\s` on `str`
(ASCII whitespace, the C1 whitespace control codes, and the Unicode
space characters). -/
def pySpace (c : Char) : Bool :=
  (9 ≤ c.toNat && c.toNat ≤ 13) || c.toNat = 32 ||
  (28 ≤ c.toNat && c.toNat ≤ 31) || c.toNat = 133 || c.toNat = 160 ||
  c.toNat = 5760 || (8192 ≤ c.toNat && c.toNat ≤ 8202) ||
  c.toNat = 8232 || c.toNat = 8233 || c.toNat = 8239 || c.toNat = 8287 ||
  c.toNat = 12288

/-- Printable 7-bit ASCII: codes 32 through 126 inclusive. -/
def printableAscii (c : Char) : Bool := 32 ≤ c.toNat && c.toNat ≤ 126

/-! ## `_scrub_webpage_content_chars`

The aggressive character scrub, four steps in the source's order:
ASCII-encode with `ignore`, dash normalization, zero-width removal,
control-character removal. -/

/-- Step 1: `text.encode('ascii', 'ignore').decode('ascii')` drops every
character whose code point is outside the 7-bit ASCII range. -/
def asciiIgnore (l : List Char) : List Char := l.filter (fun c => c.toNat ≤ 127)

/-- Step 2: `.replace('–', '-').replace('—', '-')` — en dash (U+2013) and
em dash (U+2014) become the hyphen-minus.  A single-character
`str.replace` is a character map. -/
def dashToHyphen (c : Char) : Char :=
  if c.toNat = 0x2013 ∨ c.toNat = 0x2014 then '-' else c

/-- Step 2 applied to the whole text. -/
def normalizeDashes (l : List Char) : List Char := l.map dashToHyphen

/-- Step 3: removal of U+200B, U+200C, U+200D and U+FEFF. -/
def removeZeroWidth (l : List Char) : List Char :=
  l.filter (fun c =>
    !(c.toNat = 0x200B || c.toNat = 0x200C || c.toNat = 0x200D || c.toNat = 0xFEFF))

/-- Step 4: `re.sub(r'[\x00-\x1F\x7F-\x9F]', '', ...)` removes the C0 and
C1 control ranges (codes 0-31 and 127-159); this includes newline and tab. -/
def removeControl (l : List Char) : List Char :=
  l.filter (fun c => !(c.toNat ≤ 31 || (127 ≤ c.toNat && c.toNat ≤ 159)))

/-- `_scrub_webpage_content_chars`, the four steps composed in source order. -/
def scrub_webpage_content_chars (l : List Char) : List Char :=
  removeControl (removeZeroWidth (normalizeDashes (asciiIgnore l)))

theorem mem_asciiIgnore {c : Char} {l : List Char} (h : c ∈ asciiIgnore l) :
    c ∈ l ∧ c.toNat ≤ 127 := by
  have := List.mem_filter.mp h
  exact ⟨this.1, by simpa using this.2⟩

theorem scrub_webpage_content_chars_printable {l : List Char} :
    ∀ c ∈ scrub_webpage_content_chars l, printableAscii c = true := by
  intro c hc
  unfold scrub_webpage_content_chars removeControl at hc
  have h1 := List.mem_filter.mp hc
  have hctl : 31 < c.toNat ∧ (c.toNat < 127 ∨ 159 < c.toNat) := by
    have := h1.2
    simpa using this
  have h2 := List.mem_filter.mp ((List.mem_filter.mp hc).1)
  have h3 : c ∈ normalizeDashes (asciiIgnore l) := h2.1
  have h4 : ∃ d ∈ asciiIgnore l, dashToHyphen d = c := by
    unfold normalizeDashes at h3
    simpa using List.mem_map.mp h3
  obtain ⟨d, hd, hdc⟩ := h4
  have hd127 : d.toNat ≤ 127 := (mem_asciiIgnore hd).2
  have hc127 : c.toNat ≤ 127 := by
    by_cases hdash : d.toNat = 0x2013 ∨ d.toNat = 0x2014
    · have : dashToHyphen d = '-' := by unfold dashToHyphen; simp [hdash]
      rw [this] at hdc; subst hdc; decide
    · have : dashToHyphen d = d := by unfold dashToHyphen; simp [hdash]
      rw [this] at hdc; subst hdc; exact hd127
  unfold printableAscii
  simp only [Bool.and_eq_true, decide_eq_true_eq]
  omega

theorem filter_eq_self_of_forall {p : Char → Bool} {l : List Char}
    (h : ∀ c ∈ l, p c = true) : l.filter p = l := by
  induction l with
  | nil => rfl
  | cons a t ih =>
    have ha := h a (by simp)
    simp [List.filter_cons, ha, ih (fun c hc => h c (by simp [hc]))]

theorem map_eq_self_of_forall {f : Char → Char} {l : List Char}
    (h : ∀ c ∈ l, f c = c) : l.map f = l := by
  induction l with
  | nil => rfl
  | cons a t ih =>
    simp [h a (by simp), ih (fun c hc => h c (by simp [hc]))]

theorem scrub_webpage_content_chars_id {l : List Char}
    (h : ∀ c ∈ l, printableAscii c = true) :
    scrub_webpage_content_chars l = l := by
  have hn : ∀ c ∈ l, 32 ≤ c.toNat ∧ c.toNat ≤ 126 := by
    intro c hc
    have := h c hc
    unfold printableAscii at this
    simp only [Bool.and_eq_true, decide_eq_true_eq] at this
    exact this
  unfold scrub_webpage_content_chars asciiIgnore
  rw [filter_eq_self_of_forall (by intro c hc; simp; exact le_trans (hn c hc).2 (by omega))]
  unfold normalizeDashes
  rw [map_eq_self_of_forall (by
    intro c hc
    unfold dashToHyphen
    have := (hn c hc).2
    have h13 : ¬(c.toNat = 0x2013 ∨ c.toNat = 0x2014) := by omega
    simp [h13])]
  unfold removeZeroWidth
  rw [filter_eq_self_of_forall (by
    intro c hc
    have h1 := (hn c hc).1
    have h2 := (hn c hc).2
    simp only [Bool.not_eq_true']
    simp only [Bool.or_eq_false_iff, decide_eq_false_iff_not]
    omega)]
  unfold removeControl
  rw [filter_eq_self_of_forall (by
    intro c hc
    have h1 := (hn c hc).1
    have h2 := (hn c hc).2
    simp only [Bool.not_eq_true']
    simp only [Bool.or_eq_false_iff, Bool.and_eq_false_iff, decide_eq_false_iff_not]
    omega)]

/-! ## Substring search -/

/-- `P` occurs as a contiguous substring of `l`. -/
def occursIn (P l : List Char) : Prop := ∃ s t, l = s ++ P ++ t

theorem isPrefixOf_iff {p l : List Char} :
    p.isPrefixOf l = true ↔ ∃ t, l = p ++ t := by
  induction p generalizing l with
  | nil => simp [List.isPrefixOf]
  | cons a p ih =>
    cases l with
    | nil => simp [List.isPrefixOf]
    | cons b l =>
      simp only [List.isPrefixOf, Bool.and_eq_true, beq_iff_eq, ih]
      constructor
      · rintro ⟨hab, t, ht⟩
        exact ⟨t, by simp [hab, ht]⟩
      · rintro ⟨t, ht⟩
        rw [List.cons_append] at ht
        injection ht with h1 h2
        exact ⟨h1.symm, t, h2⟩

theorem occursIn_iff {P l : List Char} :
    occursIn P l ↔ ∃ i, P.isPrefixOf (l.drop i) = true := by
  constructor
  · rintro ⟨s, t, rfl⟩
    refine ⟨s.length, isPrefixOf_iff.mpr ⟨t, ?_⟩⟩
    rw [List.append_assoc, List.drop_left]
  · rintro ⟨i, hp⟩
    obtain ⟨t, ht⟩ := isPrefixOf_iff.mp hp
    exact ⟨l.take i, t, by rw [List.append_assoc, ← ht, List.take_append_drop]⟩

/-- Index of the first occurrence of `pat` in `l` (the leftmost match of a
regex whose pattern is the literal `pat`). -/
def findOcc (pat : List Char) : List Char → Option Nat
  | [] => if pat.isPrefixOf ([] : List Char) then some 0 else none
  | c :: t =>
      if pat.isPrefixOf (c :: t) then some 0
      else (findOcc pat t).map (· + 1)

theorem findOcc_some {pat l : List Char} {i : Nat}
    (h : findOcc pat l = some i) :
    pat.isPrefixOf (l.drop i) = true ∧ ∀ j < i, pat.isPrefixOf (l.drop j) = false := by
  induction l generalizing i with
  | nil =>
    unfold findOcc at h
    by_cases hp : pat.isPrefixOf ([] : List Char) = true
    · simp [hp] at h
      subst h
      exact ⟨hp, by omega⟩
    · simp [Bool.of_not_eq_true hp] at h
  | cons c t ih =>
    unfold findOcc at h
    by_cases hp : pat.isPrefixOf (c :: t) = true
    · simp [hp] at h
      subst h
      exact ⟨hp, by omega⟩
    · simp [Bool.of_not_eq_true hp] at h
      obtain ⟨j, hj, rfl⟩ := h
      obtain ⟨h1, h2⟩ := ih hj
      refine ⟨by simpa using h1, ?_⟩
      intro k hk
      cases k with
      | zero => simpa using Bool.of_not_eq_true hp
      | succ k => simpa using h2 k (by omega)

theorem findOcc_none {pat l : List Char}
    (h : findOcc pat l = none) : ∀ j, pat.isPrefixOf (l.drop j) = false := by
  induction l with
  | nil =>
    intro j
    unfold findOcc at h
    by_cases hp : pat.isPrefixOf ([] : List Char) = true
    · simp [hp] at h
    · simpa [List.drop_nil] using Bool.of_not_eq_true hp
  | cons c t ih =>
    intro j
    unfold findOcc at h
    by_cases hp : pat.isPrefixOf (c :: t) = true
    · simp [hp] at h
    · simp [Bool.of_not_eq_true hp] at h
      cases j with
      | zero => simpa using Bool.of_not_eq_true hp
      | succ j => simpa using ih h j

theorem findOcc_none_iff {pat l : List Char} :
    findOcc pat l = none ↔ ¬ occursIn pat l := by
  constructor
  · intro h hocc
    obtain ⟨i, hi⟩ := occursIn_iff.mp hocc
    have hf := findOcc_none h i
    rw [hi] at hf
    simp at hf
  · intro h
    cases hf : findOcc pat l with
    | none => rfl
    | some i =>
      exact absurd (occursIn_iff.mpr ⟨i, (findOcc_some hf).1⟩) h

theorem isPrefixOf_of_take {P t : List Char} {k : Nat}
    (h : P.isPrefixOf (t.take k) = true) : P.isPrefixOf t = true := by
  obtain ⟨r, hr⟩ := isPrefixOf_iff.mp h
  refine isPrefixOf_iff.mpr ⟨r ++ t.drop k, ?_⟩
  rw [← List.append_assoc, ← hr, List.take_append_drop]

theorem occursIn_of_take {P l : List Char} {k : Nat}
    (h : occursIn P (l.take k)) : occursIn P l := by
  obtain ⟨i, hi⟩ := occursIn_iff.mp h
  rw [List.drop_take] at hi
  exact occursIn_iff.mpr ⟨i, isPrefixOf_of_take hi⟩

theorem occursIn_of_drop {P l : List Char} {k : Nat}
    (h : occursIn P (l.drop k)) : occursIn P l := by
  obtain ⟨i, hi⟩ := occursIn_iff.mp h
  rw [List.drop_drop] at hi
  exact occursIn_iff.mpr ⟨k + i, hi⟩

/-- Occurrences that lie inside the prefix kept by `take` start strictly
before the cut, as occurrences of the full list. -/
theorem occursIn_take_found {P l : List Char} {k : Nat} (hP : P ≠ [])
    (h : occursIn P (l.take k)) :
    ∃ j, j < k ∧ P.isPrefixOf (l.drop j) = true := by
  obtain ⟨s, t, hst⟩ := h
  have h2 : (l.take k).drop s.length = P ++ t := by
    rw [hst, List.append_assoc, List.drop_left]
  have hp : P.isPrefixOf ((l.take k).drop s.length) = true := isPrefixOf_iff.mpr ⟨t, h2⟩
  rw [List.drop_take] at hp
  refine ⟨s.length, ?_, isPrefixOf_of_take hp⟩
  have hlen : (l.take k).length = s.length + P.length + t.length := by
    rw [hst, List.length_append, List.length_append]
  have hklen : (l.take k).length ≤ k := List.length_take_le _ _
  have hplen : 0 < P.length := List.length_pos.mpr hP
  omega

/-! ## Boilerplate removal: the SIGN IN TO EDIT substitutions -/

/-- The first boilerplate substitution of `read_and_clean_webpage` (the
chat-bubble pattern).  Its regex contains the mandatory literals U+D83D
and U+22EE; its input has already passed `scrub_webpage_content_chars`,
which leaves only ASCII codes 32-126, so the pattern can never match and
the substitution is the identity on every input the pipeline feeds it. -/
def chatBubbleSub (l : List Char) : List Char := l

/-- The literal of `re.sub(r'SIGN IN TO EDIT.*', '', content)`. -/
def signInMarker : List Char := "SIGN IN TO EDIT".data

theorem dropWhile_append_all {p : Char → Bool} {q r : List Char}
    (h : ∀ c ∈ q, p c = true) : (q ++ r).dropWhile p = r.dropWhile p := by
  induction q with
  | nil => rfl
  | cons a q ih =>
    simp only [List.cons_append, List.dropWhile_cons, h a (by simp)]
    exact ih (fun c hc => h c (by simp [hc]))

theorem dropWhile_eq_nil_of_all {p : Char → Bool} {r : List Char}
    (h : ∀ c ∈ r, p c = true) : r.dropWhile p = [] := by
  induction r with
  | nil => rfl
  | cons a r ih =>
    simp only [List.dropWhile_cons, h a (by simp)]
    exact ih (fun c hc => h c (by simp [hc]))

/-- Recursion worker for the SIGN IN TO EDIT substitution.  The fuel only
drives the recursion; `l.length` always suffices, because every rewrite
removes at least the fifteen marker characters. -/
def signInAux : Nat → List Char → List Char
  | 0, l => l
  | n + 1, l =>
    match findOcc signInMarker l with
    | none => l
    | some p => l.take p ++ signInAux n ((l.drop p).dropWhile (fun c => c != '\n'))

/-- `re.sub(r'SIGN IN TO EDIT.*', '', content)`: from each occurrence of
the marker, the rest of its line is removed (`.` does not match a
newline), scanning left to right. -/
def signInStep (l : List Char) : List Char := signInAux l.length l

theorem signInAux_nil (n : Nat) : signInAux n [] = [] := by
  cases n with
  | zero => rfl
  | succ n =>
    have : findOcc signInMarker [] = none := by decide
    simp [signInAux, this]

theorem findOcc_marker_shrink {l : List Char} {p : Nat}
    (h : findOcc signInMarker l = some p) :
    ((l.drop p).dropWhile (fun c => c != '\n')).length + 15 ≤ l.length := by
  obtain ⟨t, ht⟩ := isPrefixOf_iff.mp (findOcc_some h).1
  have hall : ∀ c ∈ signInMarker, (c != '\n') = true := by decide
  have hdw : (l.drop p).dropWhile (fun c => c != '\n') =
      t.dropWhile (fun c => c != '\n') := by
    rw [ht]; exact dropWhile_append_all hall
  have hlen1 : (l.drop p).length = l.length - p := List.length_drop _ _
  have hlen2 : (l.drop p).length = 15 + t.length := by
    rw [ht]; simp [List.length_append]; decide
  have hlen3 : (t.dropWhile (fun c => c != '\n')).length ≤ t.length :=
    (List.dropWhile_sublist _).length_le
  rw [hdw]
  omega

theorem signInAux_congr : ∀ n m l, l.length ≤ n → l.length ≤ m →
    signInAux n l = signInAux m l := by
  intro n
  induction n with
  | zero =>
    intro m l h1 _
    have : l = [] := List.length_eq_zero.mp (by omega)
    subst this
    rw [signInAux_nil, signInAux_nil]
  | succ n ih =>
    intro m l h1 h2
    cases m with
    | zero =>
      have : l = [] := List.length_eq_zero.mp (by omega)
      subst this
      rw [signInAux_nil, signInAux_nil]
    | succ m =>
      show signInAux (n + 1) l = signInAux (m + 1) l
      unfold signInAux
      cases hf : findOcc signInMarker l with
      | none => rfl
      | some p =>
        have hs := findOcc_marker_shrink hf
        show l.take p ++ signInAux n ((l.drop p).dropWhile (fun c => c != '\n')) =
          l.take p ++ signInAux m ((l.drop p).dropWhile (fun c => c != '\n'))
        rw [ih m _ (by omega) (by omega)]

theorem signInStep_eq (l : List Char) :
    signInStep l = match findOcc signInMarker l with
      | none => l
      | some p => l.take p ++ signInStep ((l.drop p).dropWhile (fun c => c != '\n')) := by
  cases hf : findOcc signInMarker l with
  | none =>
    show signInAux l.length l = l
    cases hl : l.length with
    | zero =>
      have hnil : l = [] := List.length_eq_zero.mp hl
      subst hnil
      exact signInAux_nil 0
    | succ k =>
      unfold signInAux
      rw [hf]
  | some p =>
    have hs := findOcc_marker_shrink hf
    have h1 : l.length = (l.length - 1) + 1 := by omega
    show signInAux l.length l = _
    rw [h1]
    show signInAux ((l.length - 1) + 1) l = _
    unfold signInAux
    rw [hf]
    show l.take p ++ signInAux (l.length - 1) ((l.drop p).dropWhile (fun c => c != '\n')) = _
    unfold signInStep
    rw [signInAux_congr (l.length - 1) _ _ (by omega) (le_refl _)]

theorem mem_signInAux : ∀ n l c, c ∈ signInAux n l → c ∈ l := by
  intro n
  induction n with
  | zero => intro l c h; exact h
  | succ n ih =>
    intro l c h
    unfold signInAux at h
    cases hf : findOcc signInMarker l with
    | none => rw [hf] at h; exact h
    | some p =>
      rw [hf] at h
      rcases List.mem_append.mp h with h1 | h2
      · exact (List.take_sublist _ _).mem h1
      · have := ih _ _ h2
        exact (List.drop_sublist _ _).mem ((List.dropWhile_sublist _).mem this)

theorem mem_signInStep {l : List Char} {c : Char} (h : c ∈ signInStep l) : c ∈ l :=
  mem_signInAux _ _ _ h

theorem signInStep_id_of_no_occur {l : List Char}
    (h : ¬ occursIn signInMarker l) : signInStep l = l := by
  rw [signInStep_eq, findOcc_none_iff.mpr h]

theorem signInStep_of_no_newline {l : List Char} (hn : '\n' ∉ l) :
    signInStep l = match findOcc signInMarker l with
      | none => l
      | some p => l.take p := by
  rw [signInStep_eq]
  cases hf : findOcc signInMarker l with
  | none => rfl
  | some p =>
    have hd : (l.drop p).dropWhile (fun c => c != '\n') = [] := by
      refine dropWhile_eq_nil_of_all ?_
      intro c hc
      have hcl : c ∈ l := (List.drop_sublist _ _).mem hc
      simp only [bne_iff_ne, ne_eq, decide_eq_true_eq]
      intro hcn
      exact hn (hcn ▸ hcl)
    show l.take p ++ signInStep ((l.drop p).dropWhile (fun c => c != '\n')) = l.take p
    rw [hd]
    have hnil : signInStep ([] : List Char) = [] := rfl
    rw [hnil, List.append_nil]

theorem signInStep_no_occur_of_no_newline {l : List Char} (hn : '\n' ∉ l) :
    ¬ occursIn signInMarker (signInStep l) := by
  rw [signInStep_of_no_newline hn]
  cases hf : findOcc signInMarker l with
  | none => exact findOcc_none_iff.mp hf
  | some p =>
    intro hocc
    obtain ⟨j, hj, hpre⟩ := occursIn_take_found (by decide) hocc
    have := (findOcc_some hf).2 j hj
    rw [hpre] at this
    simp at this

/-! ## Boilerplate removal: the Contents-hide substitution

`re.sub(r'Contents\s*\[hide\].*?(?=(Overview|\d+\s*Overview|\d+\s*Stats|
\d+\s*Firepower|\d+\s*Speed|\d+\s*Health))', '', content,
flags=re.DOTALL | re.IGNORECASE)`. -/

/-- ASCII lower-casing: how `re.IGNORECASE` folds the letters occurring in
the patterns at hand. -/
def lowerAscii (c : Char) : Char :=
  if 65 ≤ c.toNat ∧ c.toNat ≤ 90 then Char.ofNat (c.toNat + 32) else c

theorem lowerAscii_toNat (c : Char) :
    (lowerAscii c).toNat =
      if 65 ≤ c.toNat ∧ c.toNat ≤ 90 then c.toNat + 32 else c.toNat := by
  unfold lowerAscii
  split
  · next h =>
    unfold Char.ofNat
    split
    · rfl
    · next hh => exact absurd (Or.inl (by omega)) hh
  · rfl

/-- Case-insensitive relation between a pattern character and a text
character. -/
def ciEq (x y : Char) : Prop := lowerAscii x = lowerAscii y

/-- Case-insensitive literal match at the head of `l`. -/
def ciPrefix : List Char → List Char → Bool
  | [], _ => true
  | _ :: _, [] => false
  | a :: p, b :: l => (lowerAscii a == lowerAscii b) && ciPrefix p l

theorem ciPrefix_iff {pat l : List Char} :
    ciPrefix pat l = true ↔
      ∃ a t, l = a ++ t ∧ List.Forall₂ ciEq pat a := by
  induction pat generalizing l with
  | nil =>
    constructor
    · intro _
      exact ⟨[], l, rfl, List.Forall₂.nil⟩
    · intro _
      rfl
  | cons x p ih =>
    cases l with
    | nil =>
      constructor
      · intro h
        exact absurd h (by simp [ciPrefix])
      · rintro ⟨a, t, hl, hf⟩
        cases hf with
        | cons hxy hf2 => simp at hl
    | cons b l =>
      simp only [ciPrefix, Bool.and_eq_true, beq_iff_eq, ih]
      constructor
      · rintro ⟨hx, a, t, rfl, hf⟩
        exact ⟨b :: a, t, rfl, List.Forall₂.cons hx hf⟩
      · rintro ⟨a, t, hl, hf⟩
        cases hf with
        | cons hxy hf2 =>
          rw [List.cons_append] at hl
          injection hl with h1 h2
          subst h1
          exact ⟨hxy, _, t, h2, hf2⟩

theorem ciPrefix_of_forall {pat a t : List Char}
    (hf : List.Forall₂ ciEq pat a) : ciPrefix pat (a ++ t) = true :=
  ciPrefix_iff.mpr ⟨a, t, rfl, hf⟩

theorem ciPrefix_append {pat m b : List Char}
    (h : ciPrefix pat m = true) : ciPrefix pat (m ++ b) = true := by
  obtain ⟨a, t, rfl, hf⟩ := ciPrefix_iff.mp h
  rw [List.append_assoc]
  exact ciPrefix_of_forall hf

/-- Boolean tests stated on code points, for arithmetic reasoning. -/
theorem pySpace_iff {c : Char} : pySpace c = true ↔
    (9 ≤ c.toNat ∧ c.toNat ≤ 13) ∨ c.toNat = 32 ∨
    (28 ≤ c.toNat ∧ c.toNat ≤ 31) ∨ c.toNat = 133 ∨ c.toNat = 160 ∨
    c.toNat = 5760 ∨ (8192 ≤ c.toNat ∧ c.toNat ≤ 8202) ∨
    c.toNat = 8232 ∨ c.toNat = 8233 ∨ c.toNat = 8239 ∨ c.toNat = 8287 ∨
    c.toNat = 12288 := by
  unfold pySpace
  simp only [Bool.or_eq_true, Bool.and_eq_true, decide_eq_true_eq]
  tauto

theorem isAsciiDigit_iff {c : Char} :
    isAsciiDigit c = true ↔ 48 ≤ c.toNat ∧ c.toNat ≤ 57 := by
  unfold isAsciiDigit
  simp [Bool.and_eq_true, decide_eq_true_eq]

/-- Pattern words of the Contents substitution and its lookahead. -/
def contentsW : List Char := "Contents".data

def hideW : List Char := "[hide]".data

def overviewW : List Char := "Overview".data

def statsW : List Char := "Stats".data

def firepowerW : List Char := "Firepower".data

def speedW : List Char := "Speed".data

def healthW : List Char := "Health".data

/-- Match of the mandatory part `Contents\s*\[hide\]` (case-insensitive)
at the head of `l`; returns the number of characters consumed.  `\s*` is
deterministic here: backtracking cannot move its end, because a space
never matches `[` and `[` never matches `\s`. -/
def coreMatch (l : List Char) : Option Nat :=
  if ciPrefix contentsW l then
    let rest := l.drop 8
    let sp := (rest.takeWhile pySpace).length
    if ciPrefix hideW (rest.drop sp) then some (8 + sp + 6) else none
  else none

/-- The lookahead (case-insensitive)
`(?=(Overview|\d+\s*Overview|\d+\s*Stats|\d+\s*Firepower|\d+\s*Speed|\d+\s*Health))`.
In `\d+\s*word` the digit and space runs are deterministic: a letter is
neither a digit nor a space, so backtracking cannot find another split. -/
def lookaheadTest (l : List Char) : Bool :=
  ciPrefix overviewW l ||
  (match l with
   | [] => false
   | c :: _ =>
     isAsciiDigit c &&
     (let r := (l.dropWhile isAsciiDigit).dropWhile pySpace
      ciPrefix overviewW r || ciPrefix statsW r || ciPrefix firepowerW r ||
      ciPrefix speedW r || ciPrefix healthW r))

/-- First position (if any) at which a test holds, scanning left to right;
this is how a lazy `.*?` extends. -/
def firstIdx (test : List Char → Bool) : List Char → Option Nat
  | [] => if test [] then some 0 else none
  | l@(_ :: t) => if test l then some 0 else (firstIdx test t).map (· + 1)

theorem firstIdx_some {test : List Char → Bool} {l : List Char} {k : Nat}
    (h : firstIdx test l = some k) :
    test (l.drop k) = true ∧ ∀ j < k, test (l.drop j) = false := by
  induction l generalizing k with
  | nil =>
    unfold firstIdx at h
    by_cases ht : test [] = true
    · simp [ht] at h
      subst h
      exact ⟨ht, by omega⟩
    · simp [Bool.of_not_eq_true ht] at h
  | cons c t ih =>
    unfold firstIdx at h
    by_cases ht : test (c :: t) = true
    · simp [ht] at h
      subst h
      exact ⟨ht, by omega⟩
    · simp [Bool.of_not_eq_true ht] at h
      obtain ⟨j, hj, rfl⟩ := h
      obtain ⟨h1, h2⟩ := ih hj
      refine ⟨by simpa using h1, ?_⟩
      intro m hm
      cases m with
      | zero => simpa using Bool.of_not_eq_true ht
      | succ m => simpa using h2 m (by omega)

theorem firstIdx_none {test : List Char → Bool} {l : List Char}
    (h : firstIdx test l = none) : ∀ j, test (l.drop j) = false := by
  induction l with
  | nil =>
    intro j
    unfold firstIdx at h
    by_cases ht : test [] = true
    · simp [ht] at h
    · simpa using Bool.of_not_eq_true ht
  | cons c t ih =>
    intro j
    unfold firstIdx at h
    by_cases ht : test (c :: t) = true
    · simp [ht] at h
    · simp [Bool.of_not_eq_true ht] at h
      cases j with
      | zero => simpa using Bool.of_not_eq_true ht
      | succ j => simpa using ih h j

/-- The lazy `.*?` extension: smallest number of skipped characters after
which the lookahead holds. -/
def findLazy : List Char → Option Nat := firstIdx lookaheadTest

/-- A full match of the Contents pattern at position `p`: the mandatory
part matches there and some lazy extension reaches a lookahead point. -/
def fullMatchAt (l : List Char) (p : Nat) : Prop :=
  ∃ cl, coreMatch (l.drop p) = some cl ∧
    ∃ q, lookaheadTest (l.drop (p + cl + q)) = true

/-- Leftmost full match of the Contents pattern: start index and end
index (the lookahead position).  A position whose mandatory part matches
but whose lazy extension never reaches a lookahead point is not a match;
the scan moves to the next position, as the regex engine does. -/
def findContentsMatch : List Char → Option (Nat × Nat)
  | [] => none
  | l@(_ :: t) =>
    match coreMatch l with
    | some cl =>
      match findLazy (l.drop cl) with
      | some k => some (0, cl + k)
      | none => (findContentsMatch t).map (fun ij => (ij.1 + 1, ij.2 + 1))
    | none => (findContentsMatch t).map (fun ij => (ij.1 + 1, ij.2 + 1))

theorem fullMatchAt_cons_succ {c : Char} {t : List Char} {p : Nat} :
    fullMatchAt (c :: t) (p + 1) ↔ fullMatchAt t p := by
  unfold fullMatchAt
  constructor
  · rintro ⟨cl, h1, q, h2⟩
    refine ⟨cl, by simpa using h1, q, ?_⟩
    have he : p + 1 + cl + q = (p + cl + q) + 1 := by omega
    rw [he] at h2
    simpa using h2
  · rintro ⟨cl, h1, q, h2⟩
    refine ⟨cl, by simpa using h1, q, ?_⟩
    have he : p + 1 + cl + q = (p + cl + q) + 1 := by omega
    rw [he]
    simpa using h2

theorem findContentsMatch_some {l : List Char} {i j : Nat}
    (h : findContentsMatch l = some (i, j)) :
    ∃ cl k, coreMatch (l.drop i) = some cl ∧ findLazy (l.drop (i + cl)) = some k ∧
      j = i + cl + k ∧ ∀ p < i, ¬ fullMatchAt l p := by
  induction l generalizing i j with
  | nil => simp [findContentsMatch] at h
  | cons c t ih =>
    unfold findContentsMatch at h
    cases hcm : coreMatch (c :: t) with
    | some cl =>
      simp only [hcm] at h
      cases hfl : findLazy ((c :: t).drop cl) with
      | some k =>
        simp only [hfl] at h
        simp at h
        obtain ⟨rfl, rfl⟩ := h
        refine ⟨cl, k, by simpa using hcm, by simpa using hfl, by omega, ?_⟩
        intro p hp
        omega
      | none =>
        simp only [hfl] at h
        simp at h
        obtain ⟨i2, j2, hij, rfl, rfl⟩ := h
        obtain ⟨cl2, k2, hc2, hf2, hj2, hmin2⟩ := ih hij
        refine ⟨cl2, k2, by simpa using hc2, ?_, by omega, ?_⟩
        · have he : i2 + 1 + cl2 = (i2 + cl2) + 1 := by omega
          rw [he]
          simpa using hf2
        · intro p hp
          cases p with
          | zero =>
            rintro ⟨cl3, h3, q, h4⟩
            rw [List.drop_zero] at h3
            rw [hcm] at h3
            injection h3 with h3
            have hlk := firstIdx_none hfl q
            have he : 0 + cl3 + q = cl3 + q := by omega
            rw [he] at h4
            rw [← List.drop_drop] at h4
            rw [← h3] at h4
            rw [h4] at hlk
            simp at hlk
          | succ p =>
            rw [fullMatchAt_cons_succ]
            exact hmin2 p (by omega)
    | none =>
      simp only [hcm] at h
      simp at h
      obtain ⟨i2, j2, hij, rfl, rfl⟩ := h
      obtain ⟨cl2, k2, hc2, hf2, hj2, hmin2⟩ := ih hij
      refine ⟨cl2, k2, by simpa using hc2, ?_, by omega, ?_⟩
      · have he : i2 + 1 + cl2 = (i2 + cl2) + 1 := by omega
        rw [he]
        simpa using hf2
      · intro p hp
        cases p with
        | zero =>
          rintro ⟨cl3, h3, q, h4⟩
          rw [List.drop_zero] at h3
          rw [hcm] at h3
          cases h3
        | succ p =>
          rw [fullMatchAt_cons_succ]
          exact hmin2 p (by omega)

theorem findContentsMatch_none {l : List Char}
    (h : findContentsMatch l = none) : ∀ p, ¬ fullMatchAt l p := by
  induction l with
  | nil =>
    intro p
    rintro ⟨cl, h1, q, h2⟩
    rw [List.drop_nil] at h1
    cases h1
  | cons c t ih =>
    intro p
    unfold findContentsMatch at h
    cases hcm : coreMatch (c :: t) with
    | some cl =>
      simp only [hcm] at h
      cases hfl : findLazy ((c :: t).drop cl) with
      | some k => simp only [hfl] at h; cases h
      | none =>
        simp only [hfl] at h
        simp at h
        cases p with
        | zero =>
          rintro ⟨cl3, h3, q, h4⟩
          rw [List.drop_zero] at h3
          rw [hcm] at h3
          injection h3 with h3
          have hlk := firstIdx_none hfl q
          have he : 0 + cl3 + q = cl3 + q := by omega
          rw [he] at h4
          rw [← List.drop_drop] at h4
          rw [← h3] at h4
          rw [h4] at hlk
          simp at hlk
        | succ p =>
          rw [fullMatchAt_cons_succ]
          exact ih h p
    | none =>
      simp only [hcm] at h
      simp at h
      cases p with
      | zero =>
        rintro ⟨cl3, h3, q, h4⟩
        rw [List.drop_zero] at h3
        rw [hcm] at h3
        cases h3
      | succ p =>
        rw [fullMatchAt_cons_succ]
        exact ih h p

theorem findContentsMatch_ne_none {l : List Char} {p : Nat}
    (h : fullMatchAt l p) : findContentsMatch l ≠ none := by
  intro hn
  exact findContentsMatch_none hn p h

theorem findContentsMatch_some_full {l : List Char} {i j : Nat}
    (h : findContentsMatch l = some (i, j)) : fullMatchAt l i := by
  obtain ⟨cl, k, hc, hf, _, _⟩ := findContentsMatch_some h
  refine ⟨cl, hc, k, ?_⟩
  have h1 := (firstIdx_some hf).1
  rw [List.drop_drop] at h1
  exact h1

theorem takeWhile_append_left {p : Char → Bool} {x y : List Char}
    (hx : ∀ c ∈ x, p c = true) (hy : ∀ c r, y = c :: r → p c = false) :
    (x ++ y).takeWhile p = x ∧ (x ++ y).dropWhile p = y := by
  induction x with
  | nil =>
    cases y with
    | nil => exact ⟨rfl, rfl⟩
    | cons c r =>
      have := hy c r rfl
      simp [List.takeWhile_cons, List.dropWhile_cons, this]
  | cons a x ih =>
    have ha := hx a (by simp)
    have ih2 := ih (fun c hc => hx c (by simp [hc]))
    simp [List.takeWhile_cons, List.dropWhile_cons, ha, ih2.1, ih2.2]

theorem drop_takeWhile_length {p : Char → Bool} {l : List Char} :
    l.drop (l.takeWhile p).length = l.dropWhile p := by
  induction l with
  | nil => rfl
  | cons a t ih =>
    by_cases ha : p a = true
    · simp [List.takeWhile_cons, List.dropWhile_cons, ha, ih]
    · simp [List.takeWhile_cons, List.dropWhile_cons, Bool.of_not_eq_true ha]

/-- Case analysis on a case-insensitive character match: the text
character is the pattern character's fold, or its uppercase preimage. -/
theorem ciEq_toNat_cases {x y : Char} (h : ciEq x y) :
    y.toNat = (lowerAscii x).toNat ∨
      (y.toNat + 32 = (lowerAscii x).toNat ∧ 65 ≤ y.toNat ∧ y.toNat ≤ 90) := by
  have hy := congrArg Char.toNat h
  rw [lowerAscii_toNat y] at hy
  by_cases hup : 65 ≤ y.toNat ∧ y.toNat ≤ 90
  · rw [if_pos hup] at hy
    exact Or.inr ⟨hy.symm, hup⟩
  · rw [if_neg hup] at hy
    exact Or.inl hy.symm

theorem coreMatch_decomp {u : List Char} {cl : Nat} (h : coreMatch u = some cl) :
    ∃ a sp b r, u = a ++ sp ++ b ++ r ∧
      List.Forall₂ ciEq contentsW a ∧ (∀ c ∈ sp, pySpace c = true) ∧
      List.Forall₂ ciEq hideW b ∧ cl = 8 + sp.length + 6 := by
  unfold coreMatch at h
  by_cases h1 : ciPrefix contentsW u = true
  · simp only [h1, if_true] at h
    by_cases h2 : ciPrefix hideW
        ((u.drop 8).drop ((u.drop 8).takeWhile pySpace).length) = true
    · simp only [h2, if_true, Option.some.injEq] at h
      obtain ⟨a, t, hu, ha⟩ := ciPrefix_iff.mp h1
      have ha8 : a.length = 8 := by
        have := ha.length_eq
        simpa using this.symm
      have hdrop : u.drop 8 = t := by
        rw [hu, ← ha8, List.drop_left]
      rw [hdrop] at h2
      rw [drop_takeWhile_length] at h2
      obtain ⟨b, r, hw, hb⟩ := ciPrefix_iff.mp h2
      refine ⟨a, t.takeWhile pySpace, b, r, ?_, ha, ?_, hb, ?_⟩
      · rw [hu]
        have ht : t = t.takeWhile pySpace ++ t.dropWhile pySpace :=
          (List.takeWhile_append_dropWhile _ _).symm
        conv_lhs => rw [ht, hw]
        simp [List.append_assoc]
      · intro c hc
        exact List.mem_takeWhile_imp hc
      · rw [← h, hdrop]
    · rw [if_neg h2] at h
      simp at h
  · simp [h1] at h

theorem hideW_head_not_space {b : List Char}
    (hb : List.Forall₂ ciEq hideW b) :
    ∃ b0 b2, b = b0 :: b2 ∧ pySpace b0 = false ∧ b0.toNat = 91 := by
  cases hb with
  | cons hx hf =>
    rename_i b0 b2
    have hlow : (lowerAscii '[').toNat = 91 := by decide
    have h91 : b0.toNat = 91 := by
      rcases ciEq_toNat_cases hx with hc | ⟨hc, hr⟩ <;> omega
    refine ⟨b0, b2, rfl, ?_, h91⟩
    rw [Bool.eq_false_iff]
    intro hs
    have := pySpace_iff.mp hs
    omega

theorem coreMatch_build {a sp b r : List Char}
    (ha : List.Forall₂ ciEq contentsW a) (hsp : ∀ c ∈ sp, pySpace c = true)
    (hb : List.Forall₂ ciEq hideW b) :
    coreMatch (a ++ sp ++ b ++ r) = some (8 + sp.length + 6) := by
  have ha8 : a.length = 8 := by
    have := ha.length_eq
    simpa using this.symm
  obtain ⟨b0, b2, rfl, hb0, _⟩ := hideW_head_not_space hb
  have h1 : ciPrefix contentsW (a ++ sp ++ (b0 :: b2) ++ r) = true := by
    have : a ++ sp ++ (b0 :: b2) ++ r = a ++ (sp ++ (b0 :: b2) ++ r) := by
      simp [List.append_assoc]
    rw [this]
    exact ciPrefix_of_forall ha
  have hdrop : (a ++ sp ++ (b0 :: b2) ++ r).drop 8 = sp ++ ((b0 :: b2) ++ r) := by
    have : a ++ sp ++ (b0 :: b2) ++ r = a ++ (sp ++ ((b0 :: b2) ++ r)) := by
      simp [List.append_assoc]
    rw [this, ← ha8, List.drop_left]
  have htw := takeWhile_append_left (p := pySpace) (y := (b0 :: b2) ++ r) hsp
    (by
      intro c rr hcr
      rw [List.cons_append] at hcr
      injection hcr with hc _
      subst hc
      exact hb0)
  have h2 : ciPrefix hideW ((b0 :: b2) ++ r) = true := ciPrefix_of_forall hb
  simp only [List.cons_append] at h1 hdrop htw h2 ⊢
  simp only [coreMatch, h1, if_true, hdrop, drop_takeWhile_length, htw.1, htw.2,
    List.drop_left, h2]

theorem coreMatch_bounds {u : List Char} {cl : Nat} (h : coreMatch u = some cl) :
    14 ≤ cl ∧ cl ≤ u.length := by
  obtain ⟨a, sp, b, r, rfl, ha, _, hb, rfl⟩ := coreMatch_decomp h
  have ha8 : a.length = 8 := by
    have := ha.length_eq
    simpa using this.symm
  have hb6 : b.length = 6 := by
    have := hb.length_eq
    simpa using this.symm
  constructor
  · omega
  · simp [List.length_append, ha8, hb6]
    omega

theorem coreMatch_congr {u v : List Char} {cl : Nat} (h : coreMatch u = some cl)
    (hv : u.take cl = v.take cl) : coreMatch v = some cl := by
  obtain ⟨a, sp, b, r, rfl, ha, hsp, hb, rfl⟩ := coreMatch_decomp h
  have ha8 : a.length = 8 := by
    have := ha.length_eq
    simpa using this.symm
  have hb6 : b.length = 6 := by
    have := hb.length_eq
    simpa using this.symm
  have hlen : (a ++ sp ++ b).length = 8 + sp.length + 6 := by
    simp [List.length_append, ha8, hb6]
    omega
  have htake : (a ++ sp ++ b ++ r).take (8 + sp.length + 6) = a ++ sp ++ b := by
    rw [← hlen]
    exact List.take_left _ _
  rw [htake] at hv
  have hv2 : v = a ++ sp ++ b ++ v.drop (8 + sp.length + 6) := by
    conv_lhs => rw [← List.take_append_drop (8 + sp.length + 6) v, ← hv]
  rw [hv2]
  exact coreMatch_build ha hsp hb

theorem firstIdx_le {test : List Char → Bool} {l : List Char} {k : Nat}
    (h : firstIdx test l = some k) : k ≤ l.length := by
  induction l generalizing k with
  | nil =>
    unfold firstIdx at h
    by_cases ht : test [] = true
    · simp [ht] at h
      omega
    · simp [Bool.of_not_eq_true ht] at h
  | cons c t ih =>
    unfold firstIdx at h
    by_cases ht : test (c :: t) = true
    · simp [ht] at h
      omega
    · simp [Bool.of_not_eq_true ht] at h
      obtain ⟨j, hj, rfl⟩ := h
      have := ih hj
      simp
      omega

theorem findContentsMatch_bounds {l : List Char} {i j : Nat}
    (h : findContentsMatch l = some (i, j)) : i + 14 ≤ j ∧ j ≤ l.length := by
  obtain ⟨cl, k, hc, hf, rfl, _⟩ := findContentsMatch_some h
  have hcb := coreMatch_bounds hc
  have hkb := firstIdx_le hf
  have h1 : (l.drop i).length = l.length - i := List.length_drop _ _
  have h2 : (l.drop (i + cl)).length = l.length - (i + cl) := List.length_drop _ _
  omega

/-- Recursion worker for the Contents-hide substitution; the fuel only
drives the recursion, `l.length` always suffices because every rewrite
consumes at least the fourteen mandatory characters. -/
def contentsAux : Nat → List Char → List Char
  | 0, l => l
  | n + 1, l =>
    match findContentsMatch l with
    | none => l
    | some ij => l.take ij.1 ++ contentsAux n (l.drop ij.2)

/-- The Contents-hide substitution: each leftmost full match is removed
and scanning resumes at the lookahead position (the match end). -/
def contentsStep (l : List Char) : List Char := contentsAux l.length l

theorem contentsAux_nil (n : Nat) : contentsAux n [] = [] := by
  cases n with
  | zero => rfl
  | succ n => simp [contentsAux, findContentsMatch]

theorem contentsAux_congr : ∀ n m l, l.length ≤ n → l.length ≤ m →
    contentsAux n l = contentsAux m l := by
  intro n
  induction n with
  | zero =>
    intro m l h1 _
    have : l = [] := List.length_eq_zero.mp (by omega)
    subst this
    rw [contentsAux_nil, contentsAux_nil]
  | succ n ih =>
    intro m l h1 h2
    cases m with
    | zero =>
      have : l = [] := List.length_eq_zero.mp (by omega)
      subst this
      rw [contentsAux_nil, contentsAux_nil]
    | succ m =>
      show contentsAux (n + 1) l = contentsAux (m + 1) l
      unfold contentsAux
      cases hf : findContentsMatch l with
      | none => rfl
      | some ij =>
        have hb := findContentsMatch_bounds (i := ij.1) (j := ij.2) (by rw [hf])
        have hd : (l.drop ij.2).length = l.length - ij.2 := List.length_drop _ _
        show l.take ij.1 ++ contentsAux n (l.drop ij.2) =
          l.take ij.1 ++ contentsAux m (l.drop ij.2)
        rw [ih m _ (by omega) (by omega)]

theorem contentsStep_eq (l : List Char) :
    contentsStep l = match findContentsMatch l with
      | none => l
      | some ij => l.take ij.1 ++ contentsStep (l.drop ij.2) := by
  cases hf : findContentsMatch l with
  | none =>
    show contentsAux l.length l = l
    cases hl : l.length with
    | zero =>
      have hnil : l = [] := List.length_eq_zero.mp hl
      subst hnil
      exact contentsAux_nil 0
    | succ k =>
      unfold contentsAux
      rw [hf]
  | some ij =>
    have hb := findContentsMatch_bounds (i := ij.1) (j := ij.2) (by rw [hf])
    have h1 : l.length = (l.length - 1) + 1 := by omega
    show contentsAux l.length l = _
    rw [h1]
    show contentsAux ((l.length - 1) + 1) l = _
    unfold contentsAux
    rw [hf]
    show l.take ij.1 ++ contentsAux (l.length - 1) (l.drop ij.2) = _
    unfold contentsStep
    have hd : (l.drop ij.2).length = l.length - ij.2 := List.length_drop _ _
    rw [contentsAux_congr (l.length - 1) _ _ (by omega) (le_refl _)]

theorem mem_contentsAux : ∀ n l c, c ∈ contentsAux n l → c ∈ l := by
  intro n
  induction n with
  | zero => intro l c h; exact h
  | succ n ih =>
    intro l c h
    unfold contentsAux at h
    cases hf : findContentsMatch l with
    | none => rw [hf] at h; exact h
    | some ij =>
      rw [hf] at h
      rcases List.mem_append.mp h with h1 | h2
      · exact (List.take_sublist _ _).mem h1
      · exact (List.drop_sublist _ _).mem (ih _ _ h2)

theorem mem_contentsStep {l : List Char} {c : Char} (h : c ∈ contentsStep l) : c ∈ l :=
  mem_contentsAux _ _ _ h

theorem contentsStep_id_of_no_match {l : List Char}
    (h : findContentsMatch l = none) : contentsStep l = l := by
  rw [contentsStep_eq, h]

/-! ### What the text right after a removed Contents block can look like

Scanning resumes at the lookahead position, so the text standing right
after each removal starts with `Overview` (case-insensitively) or with a
digit; this shape survives further removals and is what rules out new
matches appearing after a removal glues two pieces together. -/

/-- The glued-on right piece starts with a digit, or with `O`/`o`
followed by `v`/`V`, `O`/`o` or a digit (code points 79/111, 86/118,
48-57). -/
def okStartL (B : List Char) : Prop :=
  (∃ c r, B = c :: r ∧ 48 ≤ c.toNat ∧ c.toNat ≤ 57) ∨
  (∃ c₁ c₂ r, B = c₁ :: c₂ :: r ∧ (c₁.toNat = 79 ∨ c₁.toNat = 111) ∧
    (c₂.toNat = 86 ∨ c₂.toNat = 118 ∨ c₂.toNat = 79 ∨ c₂.toNat = 111 ∨
      (48 ≤ c₂.toNat ∧ c₂.toNat ≤ 57)))

theorem lookaheadTest_nil : lookaheadTest [] = false := by decide

theorem lookaheadTest_start {m : List Char} (h : lookaheadTest m = true) :
    (∃ c₁ c₂ r, m = c₁ :: c₂ :: r ∧ (c₁.toNat = 79 ∨ c₁.toNat = 111) ∧
      (c₂.toNat = 86 ∨ c₂.toNat = 118)) ∨
    (∃ c r, m = c :: r ∧ 48 ≤ c.toNat ∧ c.toNat ≤ 57) := by
  cases m with
  | nil => rw [lookaheadTest_nil] at h; cases h
  | cons c t =>
    unfold lookaheadTest at h
    rcases Bool.or_eq_true_iff.mp h with h1 | h2
    · left
      obtain ⟨a, u, heq, hf⟩ := ciPrefix_iff.mp h1
      rw [show overviewW = 'O' :: 'v' :: "erview".data from rfl] at hf
      cases hf with
      | cons hc0 hf2 =>
        rename_i a0 l2
        cases hf2 with
        | cons hc1 hf3 =>
          rename_i a1 l3
          have hO : (lowerAscii 'O').toNat = 111 := by decide
          have hv : (lowerAscii 'v').toNat = 118 := by decide
          refine ⟨a0, a1, l3 ++ u, by simpa [List.cons_append] using heq, ?_, ?_⟩
          · rcases ciEq_toNat_cases hc0 with e0 | ⟨e0, e9⟩ <;> omega
          · rcases ciEq_toNat_cases hc1 with e1 | ⟨e1, e9⟩ <;> omega
    · right
      by_cases hd : isAsciiDigit c = true
      · exact ⟨c, t, rfl, (isAsciiDigit_iff.mp hd).1, (isAsciiDigit_iff.mp hd).2⟩
      · simp [Bool.of_not_eq_true hd] at h2

theorem coreMatch_head {u : List Char} {cl : Nat} (h : coreMatch u = some cl) :
    ∃ c r, u = c :: r ∧ (c.toNat = 99 ∨ c.toNat = 67) := by
  obtain ⟨a, sp, b, r, rfl, ha, _, _, _⟩ := coreMatch_decomp h
  obtain ⟨a0, u0, hc0, _, rfl⟩ :
      ∃ b0 l2, ciEq 'C' b0 ∧ List.Forall₂ ciEq "ontents".data l2 ∧ a = b0 :: l2 := by
    rw [show contentsW = 'C' :: "ontents".data from rfl] at ha
    simpa [List.forall₂_cons_left_iff] using ha
  have hC : (lowerAscii 'C').toNat = 99 := by decide
  refine ⟨a0, u0 ++ sp ++ b ++ r, by simp [List.cons_append, List.append_assoc], ?_⟩
  rcases ciEq_toNat_cases hc0 with e0 | ⟨e0, _⟩
  · left; omega
  · right; omega

/-- The lookahead shape survives the whole substitution: the output of
`contentsStep` on a text that satisfies the lookahead is nonempty and
keeps an `okStartL` head. -/
theorem lookahead_okStart : ∀ n, ∀ m : List Char, m.length ≤ n →
    lookaheadTest m = true → okStartL (contentsStep m) := by
  intro n
  induction n with
  | zero =>
    intro m hm hl
    have : m = [] := List.length_eq_zero.mp (by omega)
    subst this
    rw [lookaheadTest_nil] at hl
    cases hl
  | succ n ih =>
    intro m hm hl
    rw [contentsStep_eq]
    cases hf : findContentsMatch m with
    | none =>
      rcases lookaheadTest_start hl with ⟨c₁, c₂, r, rfl, h1, h2⟩ | ⟨c, r, rfl, hd1, hd2⟩
      · refine Or.inr ⟨c₁, c₂, r, rfl, h1, ?_⟩
        rcases h2 with h9 | h9
        · exact Or.inl h9
        · exact Or.inr (Or.inl h9)
      · exact Or.inl ⟨c, r, rfl, hd1, hd2⟩
    | some ij =>
      show okStartL (m.take ij.1 ++ contentsStep (m.drop ij.2))
      obtain ⟨cl, k, hc, hfz, hj, hmin⟩ :=
        findContentsMatch_some (i := ij.1) (j := ij.2) (by rw [hf])
      have hb := findContentsMatch_bounds (i := ij.1) (j := ij.2) (by rw [hf])
      have hipos : 1 ≤ ij.1 := by
        by_contra h0
        have hi0 : ij.1 = 0 := by omega
        rw [hi0, List.drop_zero] at hc
        obtain ⟨c, r, heq, hcc⟩ := coreMatch_head hc
        rcases lookaheadTest_start hl with ⟨c₁, c₂, r2, hm2, h1, _⟩ | ⟨c₃, r3, hm3, h1⟩
        · rw [hm2] at heq
          injection heq with e1 _
          subst e1
          omega
        · rw [hm3] at heq
          injection heq with e1 _
          subst e1
          omega
      have hlook2 : lookaheadTest (m.drop ij.2) = true := by
        have h1 := (firstIdx_some hfz).1
        rw [List.drop_drop] at h1
        rw [hj]
        exact h1
      have hlen2 : (m.drop ij.2).length ≤ n := by
        have := List.length_drop ij.2 m
        omega
      have ihB := ih (m.drop ij.2) hlen2 hlook2
      rcases lookaheadTest_start hl with ⟨c₁, c₂, r, rfl, h1, h2⟩ | ⟨c, r, rfl, hd1, hd2⟩
      · by_cases hi2 : 2 ≤ ij.1
        · have htake : (c₁ :: c₂ :: r).take ij.1 =
              c₁ :: c₂ :: r.take (ij.1 - 2) := by
            have he2 : ij.1 = (ij.1 - 2) + 1 + 1 := by omega
            rw [he2]
            simp
          rw [htake]
          refine Or.inr ⟨c₁, c₂,
            r.take (ij.1 - 2) ++ contentsStep ((c₁ :: c₂ :: r).drop ij.2),
            by simp, h1, ?_⟩
          rcases h2 with h9 | h9
          · exact Or.inl h9
          · exact Or.inr (Or.inl h9)
        · have hi1 : ij.1 = 1 := by omega
          have htake : (c₁ :: c₂ :: r).take ij.1 = [c₁] := by rw [hi1]; rfl
          rw [htake]
          rcases ihB with ⟨c', r', heq, he1, he2⟩ | ⟨c₁', c₂', r', heq, hx1, hx2⟩
          · rw [heq]
            exact Or.inr ⟨c₁, c', r', by simp, h1,
              Or.inr (Or.inr (Or.inr (Or.inr ⟨he1, he2⟩)))⟩
          · rw [heq]
            refine Or.inr ⟨c₁, c₁', c₂' :: r', by simp, h1, ?_⟩
            rcases hx1 with h9 | h9
            · exact Or.inr (Or.inr (Or.inl h9))
            · exact Or.inr (Or.inr (Or.inr (Or.inl h9)))
      · have htake : (c :: r).take ij.1 = c :: r.take (ij.1 - 1) := by
          have he1 : ij.1 = (ij.1 - 1) + 1 := by omega
          rw [he1]
          simp
        rw [htake]
        refine Or.inl ⟨c,
          r.take (ij.1 - 1) ++ contentsStep ((c :: r).drop ij.2), by simp, hd1, hd2⟩

theorem okStart_head_kill {B : List Char} {c : Char} {tl : List Char}
    (hB : B = c :: tl) (hok : okStartL B)
    (hc : ¬(48 ≤ c.toNat ∧ c.toNat ≤ 57) ∧ c.toNat ≠ 79 ∧ c.toNat ≠ 111) :
    False := by
  rcases hok with ⟨c2, r2, hBe, k1, k2⟩ | ⟨c₁, c₂, r2, hBe, k1, k2⟩
  · rw [hB] at hBe
    injection hBe with e1 _
    subst e1
    exact hc.1 ⟨k1, k2⟩
  · rw [hB] at hBe
    injection hBe with e1 _
    subst e1
    rcases k1 with k | k
    · exact hc.2.1 k
    · exact hc.2.2 k

theorem okStart_two_kill {B : List Char} {c d : Char} {tl : List Char}
    (hB : B = c :: d :: tl) (hok : okStartL B)
    (hc : ¬(48 ≤ c.toNat ∧ c.toNat ≤ 57))
    (hd : d.toNat ≠ 86 ∧ d.toNat ≠ 118 ∧ d.toNat ≠ 79 ∧ d.toNat ≠ 111 ∧
      ¬(48 ≤ d.toNat ∧ d.toNat ≤ 57)) : False := by
  rcases hok with ⟨c2, r2, hBe, k1, k2⟩ | ⟨c₁, c₂, r2, hBe, k1, k2⟩
  · rw [hB] at hBe
    injection hBe with e1 _
    subst e1
    exact hc ⟨k1, k2⟩
  · rw [hB] at hBe
    injection hBe with e1 hBe2
    injection hBe2 with e2 _
    subst e1
    subst e2
    rcases k2 with k | k | k | k | k
    · exact hd.1 k
    · exact hd.2.1 k
    · exact hd.2.2.1 k
    · exact hd.2.2.2.1 k
    · exact hd.2.2.2.2 k

/-- A mandatory `Contents\s*\[hide\]` match cannot straddle the boundary
between a kept piece and a glued-on piece whose head has the `okStartL`
shape: no character of the mandatory part, case-folded, can stand where
the glued piece begins. -/
theorem coreMatch_junction {CA B : List Char} {cl : Nat}
    (h : coreMatch (CA ++ B) = some cl) (hCA : 1 ≤ CA.length)
    (hcl : CA.length < cl) (hok : okStartL B) : False := by
  obtain ⟨a, sp, b, r, heq, ha, hsp, hb, hcleq⟩ := coreMatch_decomp h
  have ha8 : a.length = 8 := by
    have := ha.length_eq
    simpa using this.symm
  have hb6 : b.length = 6 := by
    have := hb.length_eq
    simpa using this.symm
  have hB : B = (a ++ sp ++ b ++ r).drop CA.length := by
    rw [← heq, List.drop_left]
  rw [show contentsW = 'C' :: 'o' :: 'n' :: 't' :: 'e' :: 'n' :: 't' :: 's' ::
    ([] : List Char) from rfl] at ha
  cases ha with | @cons _ a0 _ l0 h0 ha => ?_
  cases ha with | @cons _ a1 _ l1 h1 ha => ?_
  cases ha with | @cons _ a2 _ l2 h2 ha => ?_
  cases ha with | @cons _ a3 _ l3 h3 ha => ?_
  cases ha with | @cons _ a4 _ l4 h4 ha => ?_
  cases ha with | @cons _ a5 _ l5 h5 ha => ?_
  cases ha with | @cons _ a6 _ l6 h6 ha => ?_
  cases ha with | @cons _ a7 _ l7 h7 ha => ?_
  cases ha
  simp only [List.cons_append, List.nil_append, List.append_assoc] at hB
  by_cases hr1 : CA.length < 8
  · obtain ⟨m, hm⟩ : ∃ m, m = CA.length := ⟨_, rfl⟩
    rw [← hm] at hB hCA hr1
    interval_cases m
    · have hBc : B = a1 :: a2 :: a3 :: a4 :: a5 :: a6 :: a7 :: (sp ++ (b ++ r)) := hB
      have hlow1 : (lowerAscii 'o').toNat = 111 := by decide
      have hlow2 : (lowerAscii 'n').toNat = 110 := by decide
      have hf1 := ciEq_toNat_cases h1
      have hf2 := ciEq_toNat_cases h2
      exact okStart_two_kill hBc hok (by omega)
        ⟨by omega, by omega, by omega, by omega, by omega⟩
    · have hBc : B = a2 :: a3 :: a4 :: a5 :: a6 :: a7 :: (sp ++ (b ++ r)) := hB
      have hlow : (lowerAscii 'n').toNat = 110 := by decide
      have hf := ciEq_toNat_cases h2
      exact okStart_head_kill hBc hok ⟨by omega, by omega, by omega⟩
    · have hBc : B = a3 :: a4 :: a5 :: a6 :: a7 :: (sp ++ (b ++ r)) := hB
      have hlow : (lowerAscii 't').toNat = 116 := by decide
      have hf := ciEq_toNat_cases h3
      exact okStart_head_kill hBc hok ⟨by omega, by omega, by omega⟩
    · have hBc : B = a4 :: a5 :: a6 :: a7 :: (sp ++ (b ++ r)) := hB
      have hlow : (lowerAscii 'e').toNat = 101 := by decide
      have hf := ciEq_toNat_cases h4
      exact okStart_head_kill hBc hok ⟨by omega, by omega, by omega⟩
    · have hBc : B = a5 :: a6 :: a7 :: (sp ++ (b ++ r)) := hB
      have hlow : (lowerAscii 'n').toNat = 110 := by decide
      have hf := ciEq_toNat_cases h5
      exact okStart_head_kill hBc hok ⟨by omega, by omega, by omega⟩
    · have hBc : B = a6 :: a7 :: (sp ++ (b ++ r)) := hB
      have hlow : (lowerAscii 't').toNat = 116 := by decide
      have hf := ciEq_toNat_cases h6
      exact okStart_head_kill hBc hok ⟨by omega, by omega, by omega⟩
    · have hBc : B = a7 :: (sp ++ (b ++ r)) := hB
      have hlow : (lowerAscii 's').toNat = 115 := by decide
      have hf := ciEq_toNat_cases h7
      exact okStart_head_kill hBc hok ⟨by omega, by omega, by omega⟩
  · have h8 : (a0 :: a1 :: a2 :: a3 :: a4 :: a5 :: a6 :: a7 ::
        (sp ++ (b ++ r))).drop 8 = sp ++ (b ++ r) := rfl
    have hBm : B = (sp ++ (b ++ r)).drop (CA.length - 8) := by
      rw [hB, ← h8, List.drop_drop]
      congr 1
      omega
    by_cases hr2 : CA.length - 8 < sp.length
    · -- inside the space run
      have hsd : (sp ++ (b ++ r)).drop (CA.length - 8) =
          sp.drop (CA.length - 8) ++ (b ++ r) := by
        rw [List.drop_append_eq_append_drop]
        have hz : CA.length - 8 - sp.length = 0 := by omega
        rw [hz, List.drop_zero]
      rw [hsd] at hBm
      have hlen : 1 ≤ (sp.drop (CA.length - 8)).length := by
        rw [List.length_drop]
        omega
      cases hsc : sp.drop (CA.length - 8) with
      | nil => rw [hsc] at hlen; simp at hlen
      | cons s0 stl =>
        have hs0 : s0 ∈ sp := (List.drop_sublist _ _).mem (by rw [hsc]; simp)
        have hsp0 := pySpace_iff.mp (hsp s0 hs0)
        rw [hsc] at hBm
        have hBc : B = s0 :: (stl ++ (b ++ r)) := by
          rw [hBm]
          simp [List.cons_append]
        exact okStart_head_kill hBc hok ⟨by omega, by omega, by omega⟩
    · -- inside the [hide] part
      have hsd : (sp ++ (b ++ r)).drop (CA.length - 8) =
          (b ++ r).drop (CA.length - 8 - sp.length) := by
        rw [List.drop_append_eq_append_drop]
        rw [List.drop_eq_nil_of_le (by omega), List.nil_append]
      rw [hsd] at hBm
      rw [show hideW = '[' :: 'h' :: 'i' :: 'd' :: 'e' :: ']' ::
        ([] : List Char) from rfl] at hb
      cases hb with | @cons _ b0 _ w0 g0 hb => ?_
      cases hb with | @cons _ b1 _ w1 g1 hb => ?_
      cases hb with | @cons _ b2 _ w2 g2 hb => ?_
      cases hb with | @cons _ b3 _ w3 g3 hb => ?_
      cases hb with | @cons _ b4 _ w4 g4 hb => ?_
      cases hb with | @cons _ b5 _ w5 g5 hb => ?_
      cases hb
      simp only [List.cons_append, List.nil_append] at hBm
      obtain ⟨m2, hm2⟩ : ∃ m2, m2 = CA.length - 8 - sp.length := ⟨_, rfl⟩
      rw [← hm2] at hBm
      have hm6 : m2 < 6 := by omega
      interval_cases m2
      · have hBc : B = b0 :: b1 :: b2 :: b3 :: b4 :: b5 :: r := hBm
        have hlow : (lowerAscii '[').toNat = 91 := by decide
        have hf := ciEq_toNat_cases g0
        exact okStart_head_kill hBc hok ⟨by omega, by omega, by omega⟩
      · have hBc : B = b1 :: b2 :: b3 :: b4 :: b5 :: r := hBm
        have hlow : (lowerAscii 'h').toNat = 104 := by decide
        have hf := ciEq_toNat_cases g1
        exact okStart_head_kill hBc hok ⟨by omega, by omega, by omega⟩
      · have hBc : B = b2 :: b3 :: b4 :: b5 :: r := hBm
        have hlow : (lowerAscii 'i').toNat = 105 := by decide
        have hf := ciEq_toNat_cases g2
        exact okStart_head_kill hBc hok ⟨by omega, by omega, by omega⟩
      · have hBc : B = b3 :: b4 :: b5 :: r := hBm
        have hlow : (lowerAscii 'd').toNat = 100 := by decide
        have hf := ciEq_toNat_cases g3
        exact okStart_head_kill hBc hok ⟨by omega, by omega, by omega⟩
      · have hBc : B = b4 :: b5 :: r := hBm
        have hlow : (lowerAscii 'e').toNat = 101 := by decide
        have hf := ciEq_toNat_cases g4
        exact okStart_head_kill hBc hok ⟨by omega, by omega, by omega⟩
      · have hBc : B = b5 :: r := hBm
        have hlow : (lowerAscii ']').toNat = 93 := by decide
        have hf := ciEq_toNat_cases g5
        exact okStart_head_kill hBc hok ⟨by omega, by omega, by omega⟩

theorem lookahead_okStart2 {m : List Char} (hl : lookaheadTest m = true) :
    okStartL (contentsStep m) :=
  lookahead_okStart m.length m (le_refl _) hl

/-- The output of the Contents-hide substitution admits no further match:
the substitution is exhaustive in a single pass. -/
theorem contentsStep_no_match : ∀ n, ∀ l : List Char, l.length ≤ n →
    findContentsMatch (contentsStep l) = none := by
  intro n
  induction n with
  | zero =>
    intro l hl
    have : l = [] := List.length_eq_zero.mp (by omega)
    subst this
    rfl
  | succ n ih =>
    intro l hl
    rw [contentsStep_eq]
    cases hf : findContentsMatch l with
    | none => exact hf
    | some ij =>
      obtain ⟨cl, k, hc, hfz, hj, hmin⟩ :=
        findContentsMatch_some (i := ij.1) (j := ij.2) (by rw [hf])
      have hbnd := findContentsMatch_bounds (i := ij.1) (j := ij.2) (by rw [hf])
      have hlook : lookaheadTest (l.drop ij.2) = true := by
        have h1 := (firstIdx_some hfz).1
        rw [List.drop_drop] at h1
        rw [hj]
        exact h1
      have hokB : okStartL (contentsStep (l.drop ij.2)) := lookahead_okStart2 hlook
      have ihB : findContentsMatch (contentsStep (l.drop ij.2)) = none := by
        apply ih
        have := List.length_drop ij.2 l
        omega
      show findContentsMatch (l.take ij.1 ++ contentsStep (l.drop ij.2)) = none
      set A := l.take ij.1 with hA
      set B := contentsStep (l.drop ij.2) with hB
      have hAlen : A.length = ij.1 := by
        rw [hA, List.length_take]
        omega
      cases hres : findContentsMatch (A ++ B) with
      | none => rfl
      | some pq =>
        exfalso
        obtain ⟨cl2, hc2, q2, hl2⟩ :=
          findContentsMatch_some_full (i := pq.1) (j := pq.2) (by rw [hres])
        by_cases hp : A.length ≤ pq.1
        · have hdropP : (A ++ B).drop pq.1 = B.drop (pq.1 - A.length) := by
            rw [List.drop_append_eq_append_drop, List.drop_eq_nil_of_le hp,
              List.nil_append]
          have hdropQ : (A ++ B).drop (pq.1 + cl2 + q2) =
              B.drop ((pq.1 - A.length) + cl2 + q2) := by
            rw [List.drop_append_eq_append_drop,
              List.drop_eq_nil_of_le (by omega : A.length ≤ pq.1 + cl2 + q2),
              List.nil_append]
            congr 1
            omega
          rw [hdropP] at hc2
          rw [hdropQ] at hl2
          exact findContentsMatch_ne_none ⟨cl2, hc2, q2, hl2⟩ ihB
        · push_neg at hp
          have hsplit : (A ++ B).drop pq.1 = A.drop pq.1 ++ B := by
            rw [List.drop_append_eq_append_drop]
            have hz : pq.1 - A.length = 0 := by omega
            rw [hz, List.drop_zero]
          rw [hsplit] at hc2
          by_cases hcl2 : cl2 ≤ A.length - pq.1
          · have htake : (A.drop pq.1 ++ B).take cl2 = (l.drop pq.1).take cl2 := by
              rw [List.take_append_eq_append_take]
              have hz : cl2 - (A.drop pq.1).length = 0 := by
                rw [List.length_drop]
                omega
              rw [hz, List.take_zero, List.append_nil]
              rw [hA, List.drop_take, List.take_take]
              congr 1
              omega
            have hcL : coreMatch (l.drop pq.1) = some cl2 := coreMatch_congr hc2 htake
            have hlkL : lookaheadTest
                (l.drop (pq.1 + cl2 + (ij.2 - pq.1 - cl2))) = true := by
              have he : pq.1 + cl2 + (ij.2 - pq.1 - cl2) = ij.2 := by omega
              rw [he]
              exact hlook
            exact hmin pq.1 (by omega) ⟨cl2, hcL, ij.2 - pq.1 - cl2, hlkL⟩
          · push_neg at hcl2
            refine coreMatch_junction hc2 ?_ ?_ hokB
            · rw [List.length_drop]
              omega
            · rw [List.length_drop]
              omega

/-- How an occurrence decomposes over an append: inside the left part,
inside the right part, or straddling the junction. -/
theorem occursIn_append {P A B : List Char} (hocc : occursIn P (A ++ B)) :
    occursIn P A ∨ occursIn P B ∨
    ∃ P₁ P₂, P = P₁ ++ P₂ ∧ P₁ ≠ [] ∧ P₂ ≠ [] ∧
      (∃ s, A = s ++ P₁) ∧ ∃ t2, B = P₂ ++ t2 := by
  obtain ⟨s, t, hst⟩ := hocc
  by_cases h1 : s.length + P.length ≤ A.length
  · left
    have hA : A = (A ++ B).take A.length := (List.take_left _ _).symm
    rw [hst, List.append_assoc, List.take_append_eq_append_take] at hA
    rw [List.take_of_length_le (by omega : s.length ≤ A.length)] at hA
    rw [List.take_append_eq_append_take] at hA
    rw [List.take_of_length_le (by omega : P.length ≤ A.length - s.length)] at hA
    refine ⟨s, t.take (A.length - s.length - P.length), ?_⟩
    rw [List.append_assoc]
    exact hA
  · by_cases h2 : A.length ≤ s.length
    · right
      left
      have hBe : B = (A ++ B).drop A.length := (List.drop_left _ _).symm
      rw [hst, List.append_assoc, List.drop_append_eq_append_drop] at hBe
      have hz : A.length - s.length = 0 := by omega
      rw [hz, List.drop_zero] at hBe
      refine ⟨s.drop A.length, t, ?_⟩
      rw [List.append_assoc]
      exact hBe
    · right
      right
      push_neg at h1 h2
      refine ⟨P.take (A.length - s.length), P.drop (A.length - s.length),
        (List.take_append_drop _ _).symm, ?_, ?_, ⟨s, ?_⟩, ⟨t, ?_⟩⟩
      · intro hnil
        have hlen := congrArg List.length hnil
        rw [List.length_take, List.length_nil] at hlen
        omega
      · intro hnil
        have hlen := congrArg List.length hnil
        rw [List.length_drop, List.length_nil] at hlen
        omega
      · have hA : A = (A ++ B).take A.length := (List.take_left _ _).symm
        rw [hst, List.append_assoc, List.take_append_eq_append_take] at hA
        rw [List.take_of_length_le (by omega : s.length ≤ A.length)] at hA
        rw [List.take_append_eq_append_take] at hA
        have hz : A.length - s.length - P.length = 0 := by omega
        rw [hz, List.take_zero, List.append_nil] at hA
        exact hA
      · have hBe : B = (A ++ B).drop A.length := (List.drop_left _ _).symm
        rw [hst, List.append_assoc, List.drop_append_eq_append_drop] at hBe
        rw [List.drop_eq_nil_of_le (by omega : s.length ≤ A.length)] at hBe
        rw [List.nil_append, List.drop_append_eq_append_drop] at hBe
        have hz : A.length - s.length - P.length = 0 := by omega
        rw [hz, List.drop_zero] at hBe
        exact hBe

/-- Whether a nonempty piece could begin an `okStartL` text. -/
def spanOK : List Char → Bool
  | [] => true
  | c :: [] => (48 ≤ c.toNat && c.toNat ≤ 57) || c.toNat == 79 || c.toNat == 111
  | c :: c₂ :: _ =>
      (48 ≤ c.toNat && c.toNat ≤ 57) ||
      ((c.toNat == 79 || c.toNat == 111) &&
        (c₂.toNat == 86 || c₂.toNat == 118 || c₂.toNat == 79 || c₂.toNat == 111 ||
          (48 ≤ c₂.toNat && c₂.toNat ≤ 57)))

theorem okStart_spanOK {P₂ t : List Char} (hP : P₂ ≠ [])
    (hok : okStartL (P₂ ++ t)) : spanOK P₂ = true := by
  cases P₂ with
  | nil => exact absurd rfl hP
  | cons c P2 =>
    cases P2 with
    | nil =>
      rcases hok with ⟨c2, r2, heq, k1, k2⟩ | ⟨c₁, c₂, r2, heq, k1, k2⟩
      · rw [List.cons_append, List.nil_append] at heq
        injection heq with e1 _
        subst e1
        unfold spanOK
        simp only [Bool.or_eq_true, Bool.and_eq_true, decide_eq_true_eq, beq_iff_eq]
        omega
      · rw [List.cons_append, List.nil_append] at heq
        injection heq with e1 _
        subst e1
        unfold spanOK
        simp only [Bool.or_eq_true, Bool.and_eq_true, decide_eq_true_eq, beq_iff_eq]
        omega
    | cons d P3 =>
      rcases hok with ⟨c2, r2, heq, k1, k2⟩ | ⟨c₁, c₂, r2, heq, k1, k2⟩
      · rw [List.cons_append] at heq
        injection heq with e1 _
        subst e1
        unfold spanOK
        simp only [Bool.or_eq_true, Bool.and_eq_true, decide_eq_true_eq, beq_iff_eq]
        omega
      · rw [List.cons_append] at heq
        injection heq with e1 heq2
        rw [List.cons_append] at heq2
        injection heq2 with e2 _
        subst e1
        subst e2
        unfold spanOK
        simp only [Bool.or_eq_true, Bool.and_eq_true, decide_eq_true_eq, beq_iff_eq]
        omega

theorem marker_span_kill {P₁ P₂ t : List Char}
    (hmk : signInMarker = P₁ ++ P₂) (h1 : P₁ ≠ []) (h2 : P₂ ≠ [])
    (hok : okStartL (P₂ ++ t)) : False := by
  have hsp := okStart_spanOK h2 hok
  have hP2 : P₂ = signInMarker.drop P₁.length := by
    rw [hmk, List.drop_left]
  have hmlen : signInMarker.length = 15 := by decide
  have hlen : P₁.length < 15 := by
    have hl2 := congrArg List.length hmk
    rw [hmlen, List.length_append] at hl2
    have : 0 < P₂.length := List.length_pos.mpr h2
    omega
  have hlen1 : 1 ≤ P₁.length := List.length_pos.mpr h1
  have hall : ∀ k, k < 15 → 1 ≤ k → spanOK (signInMarker.drop k) = false := by decide
  have hfalse := hall P₁.length hlen hlen1
  rw [← hP2, hsp] at hfalse
  cases hfalse

/-- The Contents-hide substitution never creates a SIGN IN TO EDIT
occurrence: each junction it creates starts with a lookahead shape, and
no split of the marker matches that shape. -/
theorem contentsStep_no_marker : ∀ n, ∀ l : List Char, l.length ≤ n →
    ¬ occursIn signInMarker l → ¬ occursIn signInMarker (contentsStep l) := by
  intro n
  induction n with
  | zero =>
    intro l hl hno
    have : l = [] := List.length_eq_zero.mp (by omega)
    subst this
    exact hno
  | succ n ih =>
    intro l hl hno
    rw [contentsStep_eq]
    cases hf : findContentsMatch l with
    | none => exact hno
    | some ij =>
      obtain ⟨cl, k, hc, hfz, hj, hmin⟩ :=
        findContentsMatch_some (i := ij.1) (j := ij.2) (by rw [hf])
      have hbnd := findContentsMatch_bounds (i := ij.1) (j := ij.2) (by rw [hf])
      have hlook : lookaheadTest (l.drop ij.2) = true := by
        have h1 := (firstIdx_some hfz).1
        rw [List.drop_drop] at h1
        rw [hj]
        exact h1
      have hnoB : ¬ occursIn signInMarker (contentsStep (l.drop ij.2)) := by
        refine ih _ ?_ ?_
        · have := List.length_drop ij.2 l
          omega
        · intro ho
          exact hno (occursIn_of_drop ho)
      have hokB : okStartL (contentsStep (l.drop ij.2)) := lookahead_okStart2 hlook
      intro hocc
      rcases occursIn_append hocc with hA | hBo | ⟨P₁, P₂, hmk, hp1, hp2, hAs, t2, hBt⟩
      · exact hno (occursIn_of_take hA)
      · exact hnoB hBo
      · rw [hBt] at hokB
        exact marker_span_kill hmk hp1 hp2 hokB

/-! ## Standalone-number lines, blank-line collapsing, strip -/

/-- The optional `(\.\d+)?` part and the trailing `\s*$` check: consume a
dot followed by at least one digit if present (backtracking cannot choose
another split: a space is not a digit and a digit is not a dot). -/
def numLineTail (r2 : List Char) : List Char :=
  match r2 with
  | c :: t2 =>
      if c = '.' then
        if (t2.takeWhile isAsciiDigit).isEmpty then c :: t2
        else t2.drop (t2.takeWhile isAsciiDigit).length
      else c :: t2
  | [] => []

theorem numLineTail_nil : numLineTail [] = [] := rfl

theorem numLineTail_cons_ne_dot {c : Char} {t2 : List Char} (h : ¬ c = '.') :
    numLineTail (c :: t2) = c :: t2 := by
  show (if c = '.' then
      if (t2.takeWhile isAsciiDigit).isEmpty then c :: t2
      else t2.drop (t2.takeWhile isAsciiDigit).length
    else c :: t2) = c :: t2
  rw [if_neg h]

theorem numLineTail_dot {t2 : List Char} :
    numLineTail ('.' :: t2) =
      if (t2.takeWhile isAsciiDigit).isEmpty then '.' :: t2
      else t2.drop (t2.takeWhile isAsciiDigit).length := by
  show (if ('.' : Char) = '.' then
      if (t2.takeWhile isAsciiDigit).isEmpty then '.' :: t2
      else t2.drop (t2.takeWhile isAsciiDigit).length
    else '.' :: t2) = _
  rw [if_pos rfl]

/-- Match of `^\s*\d+(\.\d+)?\s*$` against the whole string.  The input of
this step has passed the character scrub, which removes every newline, so
the `re.MULTILINE` anchors can only bind at the string boundaries. -/
def numLineMatch (l : List Char) : Bool :=
  !((l.dropWhile pySpace).takeWhile isAsciiDigit).isEmpty &&
    (numLineTail ((l.dropWhile pySpace).drop
      ((l.dropWhile pySpace).takeWhile isAsciiDigit).length)).all pySpace

/-- `re.sub(r'^\s*\d+(\.\d+)?\s*$', '', content, flags=re.MULTILINE)` on a
newline-free string: the whole string is erased when it is a standalone
(possibly decimal) number. -/
def numLineStep (l : List Char) : List Char :=
  if numLineMatch l then [] else l

/-- The decomposition shape described by `^\s*\d+(\.\d+)?\s*$`. -/
def NumShape (l : List Char) : Prop :=
  ∃ s₁ ds opt s₂, l = s₁ ++ ds ++ opt ++ s₂ ∧ (∀ c ∈ s₁, pySpace c = true) ∧
    ds ≠ [] ∧ (∀ c ∈ ds, isAsciiDigit c = true) ∧ (∀ c ∈ s₂, pySpace c = true) ∧
    (opt = [] ∨ ∃ ds₂, ds₂ ≠ [] ∧ (∀ c ∈ ds₂, isAsciiDigit c = true) ∧
      opt = '.' :: ds₂)

theorem dropWhile_head_false {p : Char → Bool} {u : List Char} {c : Char}
    {t : List Char} (h : u.dropWhile p = c :: t) : p c = false := by
  induction u with
  | nil => cases h
  | cons a u ih =>
    by_cases ha : p a = true
    · rw [List.dropWhile_cons, if_pos ha] at h
      exact ih h
    · rw [List.dropWhile_cons, if_neg ha] at h
      injection h with h1 _
      subst h1
      exact Bool.of_not_eq_true ha

theorem digit_not_space {c : Char} (h : isAsciiDigit c = true) :
    pySpace c = false := by
  rw [Bool.eq_false_iff]
  intro hs
  have h1 := isAsciiDigit_iff.mp h
  have h2 := pySpace_iff.mp hs
  omega

theorem space_not_digit {c : Char} (h : pySpace c = true) :
    isAsciiDigit c = false := by
  rw [Bool.eq_false_iff]
  intro hd
  have h1 := isAsciiDigit_iff.mp hd
  have h2 := pySpace_iff.mp h
  omega

theorem numLineMatch_of_NumShape {l : List Char} (h : NumShape l) :
    numLineMatch l = true := by
  obtain ⟨s₁, ds, opt, s₂, rfl, hs₁, hds, hdig, hs₂, hopt⟩ := h
  obtain ⟨d0, ds2, rfl⟩ : ∃ d0 ds2, ds = d0 :: ds2 := by
    cases ds with
    | nil => exact absurd rfl hds
    | cons d0 ds2 => exact ⟨d0, ds2, rfl⟩
  have hL : s₁ ++ (d0 :: ds2) ++ opt ++ s₂ =
      s₁ ++ ((d0 :: ds2) ++ (opt ++ s₂)) := by
    simp [List.append_assoc]
  rw [hL]
  have hdw := takeWhile_append_left (p := pySpace) (x := s₁)
    (y := (d0 :: ds2) ++ (opt ++ s₂)) hs₁
    (by
      intro c r hcr
      rw [List.cons_append] at hcr
      injection hcr with h1 _
      rw [← h1]
      exact digit_not_space (hdig d0 (by simp)))
  have hnextNotDigit : ∀ c r, opt ++ s₂ = c :: r → isAsciiDigit c = false := by
    intro c r hcr
    rcases hopt with rfl | ⟨dd, hdd1, hdd2, rfl⟩
    · rw [List.nil_append] at hcr
      have hc : c ∈ s₂ := by rw [hcr]; simp
      exact space_not_digit (hs₂ c hc)
    · rw [List.cons_append] at hcr
      injection hcr with h1 _
      rw [← h1]
      decide
  have htw := takeWhile_append_left (p := isAsciiDigit)
    (x := d0 :: ds2) (y := opt ++ s₂) (fun c hc => hdig c hc) hnextNotDigit
  unfold numLineMatch
  rw [hdw.2, htw.1]
  rw [List.drop_left]
  simp only [List.isEmpty_cons, Bool.not_false, Bool.true_and]
  rcases hopt with rfl | ⟨dd, hdd1, hdd2, rfl⟩
  · rw [List.nil_append]
    cases s₂ with
    | nil => rfl
    | cons c s3 =>
      have hcsp : pySpace c = true := hs₂ c (by simp)
      have hcd : ¬ c = '.' := by
        intro hcd
        subst hcd
        have h2 := pySpace_iff.mp hcsp
        rw [show ('.' : Char).toNat = 46 from rfl] at h2
        omega
      rw [numLineTail_cons_ne_dot hcd]
      exact List.all_eq_true.mpr (fun c2 hc2 => hs₂ c2 hc2)
  · obtain ⟨e0, ee, rfl⟩ : ∃ e0 ee, dd = e0 :: ee := by
      cases dd with
      | nil => exact absurd rfl hdd1
      | cons e0 ee => exact ⟨e0, ee, rfl⟩
    have htw2 := takeWhile_append_left (p := isAsciiDigit)
      (x := e0 :: ee) (y := s₂) (fun c hc => hdd2 c hc)
      (by
        intro c r hcr
        have hc : c ∈ s₂ := by rw [hcr]; simp
        exact space_not_digit (hs₂ c hc))
    rw [List.cons_append, numLineTail_dot, htw2.1]
    rw [if_neg (by simp)]
    rw [List.drop_left]
    exact List.all_eq_true.mpr (fun c2 hc2 => hs₂ c2 hc2)

theorem NumShape_of_numLineMatch {l : List Char} (h : numLineMatch l = true) :
    NumShape l := by
  unfold numLineMatch at h
  rcases Bool.and_eq_true_iff.mp h with ⟨hne, hall⟩
  obtain ⟨d0, ds2, hds⟩ :
      ∃ d0 ds2, (l.dropWhile pySpace).takeWhile isAsciiDigit = d0 :: ds2 := by
    cases hc : (l.dropWhile pySpace).takeWhile isAsciiDigit with
    | nil => rw [hc] at hne; simp at hne
    | cons a b => exact ⟨a, b, rfl⟩
  have hl : l = l.takeWhile pySpace ++ l.dropWhile pySpace :=
    (List.takeWhile_append_dropWhile _ _).symm
  have hdw2 : (l.dropWhile pySpace).dropWhile isAsciiDigit =
      (l.dropWhile pySpace).drop (d0 :: ds2).length := by
    rw [← drop_takeWhile_length, hds]
  have hrds : l.dropWhile pySpace =
      (d0 :: ds2) ++ (l.dropWhile pySpace).drop (d0 :: ds2).length := by
    conv_lhs => rw [← List.takeWhile_append_dropWhile isAsciiDigit
      (l.dropWhile pySpace)]
    rw [hds, hdw2]
  rw [hds] at hall
  have hsp1 : ∀ c ∈ l.takeWhile pySpace, pySpace c = true := by
    intro c hc
    exact List.mem_takeWhile_imp hc
  have hdig1 : ∀ c ∈ (d0 :: ds2), isAsciiDigit c = true := by
    intro c hc
    rw [← hds] at hc
    exact List.mem_takeWhile_imp hc
  cases hr2c : (l.dropWhile pySpace).drop (d0 :: ds2).length with
  | nil =>
    refine ⟨l.takeWhile pySpace, d0 :: ds2, [], [], ?_, hsp1, by simp, hdig1,
      ?_, Or.inl rfl⟩
    · conv_lhs => rw [hl, hrds, hr2c]
      simp
    · intro c hc
      cases hc
  | cons c t2 =>
    rw [hr2c] at hall
    by_cases hcd : c = '.'
    · subst hcd
      rw [numLineTail_dot] at hall
      by_cases hde : (t2.takeWhile isAsciiDigit).isEmpty = true
      · rw [if_pos hde] at hall
        have hdot : pySpace '.' = true := List.all_eq_true.mp hall '.' (by simp)
        have h2 := pySpace_iff.mp hdot
        rw [show ('.' : Char).toNat = 46 from rfl] at h2
        omega
      · rw [if_neg hde] at hall
        have ht2 : t2 = t2.takeWhile isAsciiDigit ++
            t2.drop (t2.takeWhile isAsciiDigit).length := by
          rw [drop_takeWhile_length]
          exact (List.takeWhile_append_dropWhile _ _).symm
        refine ⟨l.takeWhile pySpace, d0 :: ds2, '.' :: t2.takeWhile isAsciiDigit,
          t2.drop (t2.takeWhile isAsciiDigit).length, ?_, hsp1, by simp, hdig1,
          ?_, ?_⟩
        · conv_lhs => rw [hl, hrds, hr2c]
          conv_lhs => rw [ht2]
          simp [List.append_assoc]
        · intro c2 hc2
          exact List.all_eq_true.mp hall c2 hc2
        · refine Or.inr ⟨t2.takeWhile isAsciiDigit, ?_, ?_, rfl⟩
          · intro hnil
            rw [hnil] at hde
            simp at hde
          · intro c2 hc2
            exact List.mem_takeWhile_imp hc2
    · rw [numLineTail_cons_ne_dot hcd] at hall
      refine ⟨l.takeWhile pySpace, d0 :: ds2, [], c :: t2, ?_, hsp1, by simp,
        hdig1, ?_, Or.inl rfl⟩
      · conv_lhs => rw [hl, hrds, hr2c]
        simp [List.append_assoc]
      · intro c2 hc2
        exact List.all_eq_true.mp hall c2 hc2

/-- Replacement for one maximal run of `n` newlines under
`re.sub(r'\n{3,}', '\n\n', ...)`. -/
def collapseRun (n : Nat) : List Char :=
  if 3 ≤ n then ['\n', '\n'] else List.replicate n '\n'

/-- Scanner for the newline-collapsing substitution; the counter holds the
length of the newline run read so far. -/
def collapseAux : List Char → Nat → List Char
  | [], n => collapseRun n
  | c :: t, n =>
      if c = '\n' then collapseAux t (n + 1)
      else collapseRun n ++ c :: collapseAux t 0

/-- `re.sub(r'\n{3,}', '\n\n', content)`: every run of three or more
consecutive newlines becomes exactly two. -/
def collapseNewlines (l : List Char) : List Char := collapseAux l 0

theorem collapseNewlines_id_of_no_newline {l : List Char} (h : '\n' ∉ l) :
    collapseNewlines l = l := by
  unfold collapseNewlines
  induction l with
  | nil => rfl
  | cons c t ih =>
    have hc : ¬ c = '\n' := fun he => h (he ▸ List.mem_cons_self _ _)
    show (if c = '\n' then collapseAux t 1 else collapseRun 0 ++ c :: collapseAux t 0) =
      c :: t
    rw [if_neg hc]
    rw [show collapseRun 0 = [] from rfl, List.nil_append]
    rw [ih (fun hm => h (List.mem_cons_of_mem _ hm))]

/-- `str.strip()`: remove leading and trailing whitespace. -/
def pyStrip (l : List Char) : List Char :=
  ((l.dropWhile pySpace).reverse.dropWhile pySpace).reverse

theorem dropWhile_dropWhile {p : Char → Bool} {l : List Char} :
    (l.dropWhile p).dropWhile p = l.dropWhile p := by
  cases hd : l.dropWhile p with
  | nil => rfl
  | cons c t =>
    have hcf := dropWhile_head_false hd
    rw [List.dropWhile_cons, if_neg (by simp [hcf])]

theorem pyStrip_key (l : List Char) :
    l.dropWhile pySpace =
      pyStrip l ++ ((l.dropWhile pySpace).reverse.takeWhile pySpace).reverse := by
  conv_lhs => rw [← List.reverse_reverse (l.dropWhile pySpace)]
  conv_lhs => rw [← List.takeWhile_append_dropWhile pySpace
    (l.dropWhile pySpace).reverse]
  rw [List.reverse_append]
  rfl

theorem pyStrip_decomp (l : List Char) :
    ∃ a b, l = a ++ pyStrip l ++ b ∧ (∀ c ∈ a, pySpace c = true) ∧
      (∀ c ∈ b, pySpace c = true) := by
  refine ⟨l.takeWhile pySpace,
    ((l.dropWhile pySpace).reverse.takeWhile pySpace).reverse, ?_, ?_, ?_⟩
  · conv_lhs => rw [← List.takeWhile_append_dropWhile pySpace l]
    rw [List.append_assoc]
    congr 1
    exact pyStrip_key l
  · intro c hc
    exact List.mem_takeWhile_imp hc
  · intro c hc
    rw [List.mem_reverse] at hc
    exact List.mem_takeWhile_imp hc

theorem pyStrip_idem (l : List Char) : pyStrip (pyStrip l) = pyStrip l := by
  have hfront : (pyStrip l).dropWhile pySpace = pyStrip l := by
    cases hp : pyStrip l with
    | nil => rfl
    | cons c t =>
      have hv := pyStrip_key l
      rw [hp] at hv
      have hcf : pySpace c = false := dropWhile_head_false (by
        rw [hv, List.cons_append])
      rw [List.dropWhile_cons, if_neg (by simp [hcf])]
  have hrev : (pyStrip l).reverse = (l.dropWhile pySpace).reverse.dropWhile pySpace := by
    unfold pyStrip
    rw [List.reverse_reverse]
  have hback : (pyStrip l).reverse.dropWhile pySpace = (pyStrip l).reverse := by
    rw [hrev]
    exact dropWhile_dropWhile
  calc pyStrip (pyStrip l)
      = (((pyStrip l).dropWhile pySpace).reverse.dropWhile pySpace).reverse := rfl
    _ = ((pyStrip l).reverse.dropWhile pySpace).reverse := by rw [hfront]
    _ = (pyStrip l).reverse.reverse := by rw [hback]
    _ = pyStrip l := List.reverse_reverse _

theorem occursIn_of_inner {P m a b : List Char} (h : occursIn P m) :
    occursIn P (a ++ m ++ b) := by
  obtain ⟨s, t, rfl⟩ := h
  exact ⟨a ++ s, t ++ b, by simp [List.append_assoc]⟩

theorem ciPrefix_cons_head {w0 : Char} {W r : List Char}
    (h : ciPrefix (w0 :: W) r = true) :
    ∃ h0 t0, r = h0 :: t0 ∧ ciEq w0 h0 := by
  cases r with
  | nil => simp [ciPrefix] at h
  | cons h0 t0 =>
    simp only [ciPrefix, Bool.and_eq_true, beq_iff_eq] at h
    exact ⟨h0, t0, rfl, h.1⟩

theorem ciEq_letter_not_space_digit {w h0 : Char} (hci : ciEq w h0)
    (hv : 97 ≤ (lowerAscii w).toNat ∧ (lowerAscii w).toNat ≤ 122) :
    pySpace h0 = false ∧ isAsciiDigit h0 = false := by
  have hn : (97 ≤ h0.toNat ∧ h0.toNat ≤ 122) ∨ (65 ≤ h0.toNat ∧ h0.toNat ≤ 90) := by
    rcases ciEq_toNat_cases hci with e | ⟨e, e2⟩
    · left
      omega
    · right
      omega
  constructor
  · rw [Bool.eq_false_iff]
    intro hs
    have := pySpace_iff.mp hs
    omega
  · rw [Bool.eq_false_iff]
    intro hs
    have := isAsciiDigit_iff.mp hs
    omega

theorem wordChain_head {r : List Char}
    (h : (ciPrefix overviewW r || ciPrefix statsW r || ciPrefix firepowerW r ||
      ciPrefix speedW r || ciPrefix healthW r) = true) :
    ∃ h0 t0, r = h0 :: t0 ∧ pySpace h0 = false ∧ isAsciiDigit h0 = false := by
  rcases Bool.or_eq_true_iff.mp h with h4 | hH
  rotate_left
  · obtain ⟨h0, t0, rfl, hci⟩ :=
      ciPrefix_cons_head (show ciPrefix ('H' :: "ealth".data) _ = true from hH)
    exact ⟨h0, t0, rfl, ciEq_letter_not_space_digit hci (by decide)⟩
  rcases Bool.or_eq_true_iff.mp h4 with h3 | hSp
  rotate_left
  · obtain ⟨h0, t0, rfl, hci⟩ :=
      ciPrefix_cons_head (show ciPrefix ('S' :: "peed".data) _ = true from hSp)
    exact ⟨h0, t0, rfl, ciEq_letter_not_space_digit hci (by decide)⟩
  rcases Bool.or_eq_true_iff.mp h3 with h2 | hF
  rotate_left
  · obtain ⟨h0, t0, rfl, hci⟩ :=
      ciPrefix_cons_head (show ciPrefix ('F' :: "irepower".data) _ = true from hF)
    exact ⟨h0, t0, rfl, ciEq_letter_not_space_digit hci (by decide)⟩
  rcases Bool.or_eq_true_iff.mp h2 with hO | hSt
  · obtain ⟨h0, t0, rfl, hci⟩ :=
      ciPrefix_cons_head (show ciPrefix ('O' :: "verview".data) _ = true from hO)
    exact ⟨h0, t0, rfl, ciEq_letter_not_space_digit hci (by decide)⟩
  · obtain ⟨h0, t0, rfl, hci⟩ :=
      ciPrefix_cons_head (show ciPrefix ('S' :: "tats".data) _ = true from hSt)
    exact ⟨h0, t0, rfl, ciEq_letter_not_space_digit hci (by decide)⟩

theorem lookaheadTest_append {v b : List Char} (h : lookaheadTest v = true) :
    lookaheadTest (v ++ b) = true := by
  cases v with
  | nil => rw [lookaheadTest_nil] at h; cases h
  | cons c t =>
    unfold lookaheadTest at h ⊢
    rcases Bool.or_eq_true_iff.mp h with h1 | h2
    · apply Bool.or_eq_true_iff.mpr
      left
      have hap := ciPrefix_append (b := b) h1
      rw [List.cons_append]
      rw [List.cons_append] at hap
      exact hap
    · have h2a : (isAsciiDigit c &&
          (ciPrefix overviewW (((c :: t).dropWhile isAsciiDigit).dropWhile pySpace) ||
           ciPrefix statsW (((c :: t).dropWhile isAsciiDigit).dropWhile pySpace) ||
           ciPrefix firepowerW (((c :: t).dropWhile isAsciiDigit).dropWhile pySpace) ||
           ciPrefix speedW (((c :: t).dropWhile isAsciiDigit).dropWhile pySpace) ||
           ciPrefix healthW (((c :: t).dropWhile isAsciiDigit).dropWhile pySpace)))
          = true := h2
      rcases Bool.and_eq_true_iff.mp h2a with ⟨hd, hword⟩
      obtain ⟨h0, t0, hR, hns, hnd⟩ := wordChain_head hword
      -- the digit run and space run are unchanged by appending b
      have hR1ne : ∃ r1 rt, (c :: t).dropWhile isAsciiDigit = r1 :: rt := by
        cases hc9 : (c :: t).dropWhile isAsciiDigit with
        | nil =>
          rw [hc9] at hR
          simp at hR
        | cons r1 rt => exact ⟨r1, rt, rfl⟩
      obtain ⟨r1, rt, hr1⟩ := hR1ne
      have hr1d : isAsciiDigit r1 = false := dropWhile_head_false hr1
      have hsplit1 : c :: t = (c :: t).takeWhile isAsciiDigit ++ (r1 :: rt) := by
        rw [← hr1]
        exact (List.takeWhile_append_dropWhile _ _).symm
      have hdw1 := takeWhile_append_left (p := isAsciiDigit)
        (x := (c :: t).takeWhile isAsciiDigit) (y := (r1 :: rt) ++ b)
        (fun c2 hc2 => List.mem_takeWhile_imp hc2)
        (by
          intro c2 r2 hcr
          rw [List.cons_append] at hcr
          injection hcr with e1 _
          rw [← e1]
          exact hr1d)
      have hstep1 : (c :: (t ++ b)).dropWhile isAsciiDigit = (r1 :: rt) ++ b := by
        have he : c :: (t ++ b) = ((c :: t).takeWhile isAsciiDigit ++ (r1 :: rt)) ++ b := by
          rw [← hsplit1]
          rfl
        rw [he, List.append_assoc]
        exact hdw1.2
      -- space run
      have hsplit2 : r1 :: rt = (r1 :: rt).takeWhile pySpace ++ (h0 :: t0) := by
        conv_lhs => rw [← List.takeWhile_append_dropWhile pySpace (r1 :: rt)]
        congr 1
        rw [← hr1]
        exact hR
      have hdw2 := takeWhile_append_left (p := pySpace)
        (x := (r1 :: rt).takeWhile pySpace) (y := (h0 :: t0) ++ b)
        (fun c2 hc2 => List.mem_takeWhile_imp hc2)
        (by
          intro c2 r2 hcr
          rw [List.cons_append] at hcr
          injection hcr with e1 _
          rw [← e1]
          exact hns)
      have hstep2 : ((r1 :: rt) ++ b).dropWhile pySpace = (h0 :: t0) ++ b := by
        have he : (r1 :: rt) ++ b = ((r1 :: rt).takeWhile pySpace ++ (h0 :: t0)) ++ b := by
          rw [← hsplit2]
        rw [he, List.append_assoc]
        exact hdw2.2
      apply Bool.or_eq_true_iff.mpr
      right
      show (isAsciiDigit c &&
          (ciPrefix overviewW (((c :: (t ++ b)).dropWhile isAsciiDigit).dropWhile pySpace) ||
           ciPrefix statsW (((c :: (t ++ b)).dropWhile isAsciiDigit).dropWhile pySpace) ||
           ciPrefix firepowerW (((c :: (t ++ b)).dropWhile isAsciiDigit).dropWhile pySpace) ||
           ciPrefix speedW (((c :: (t ++ b)).dropWhile isAsciiDigit).dropWhile pySpace) ||
           ciPrefix healthW (((c :: (t ++ b)).dropWhile isAsciiDigit).dropWhile pySpace)))
          = true
      rw [hstep1, hstep2]
      apply Bool.and_eq_true_iff.mpr
      refine ⟨hd, ?_⟩
      have hRb : ((c :: t).dropWhile isAsciiDigit).dropWhile pySpace ++ b =
          (h0 :: t0) ++ b := by rw [hR]
      rcases Bool.or_eq_true_iff.mp hword with h4 | hH
      rotate_left
      · apply Bool.or_eq_true_iff.mpr
        right
        rw [← hRb]
        exact ciPrefix_append hH
      rcases Bool.or_eq_true_iff.mp h4 with h3 | hSp
      rotate_left
      · apply Bool.or_eq_true_iff.mpr
        left
        apply Bool.or_eq_true_iff.mpr
        right
        rw [← hRb]
        exact ciPrefix_append hSp
      rcases Bool.or_eq_true_iff.mp h3 with h2b | hF
      rotate_left
      · apply Bool.or_eq_true_iff.mpr
        left
        apply Bool.or_eq_true_iff.mpr
        left
        apply Bool.or_eq_true_iff.mpr
        right
        rw [← hRb]
        exact ciPrefix_append hF
      rcases Bool.or_eq_true_iff.mp h2b with hO | hSt
      · apply Bool.or_eq_true_iff.mpr
        left
        apply Bool.or_eq_true_iff.mpr
        left
        apply Bool.or_eq_true_iff.mpr
        left
        apply Bool.or_eq_true_iff.mpr
        left
        rw [← hRb]
        exact ciPrefix_append hO
      · apply Bool.or_eq_true_iff.mpr
        left
        apply Bool.or_eq_true_iff.mpr
        left
        apply Bool.or_eq_true_iff.mpr
        left
        apply Bool.or_eq_true_iff.mpr
        right
        rw [← hRb]
        exact ciPrefix_append hSt

theorem fullMatchAt_padded {m a b : List Char} {p : Nat} (h : fullMatchAt m p) :
    fullMatchAt (a ++ m ++ b) (a.length + p) := by
  obtain ⟨cl, hc, q, hl⟩ := h
  have hbnd := coreMatch_bounds hc
  have hml : (m.drop p).length = m.length - p := List.length_drop _ _
  have hdrop : ∀ i, (a ++ m ++ b).drop (a.length + i) =
      m.drop i ++ b.drop (i - m.length) := by
    intro i
    rw [List.append_assoc, List.drop_append_eq_append_drop]
    rw [List.drop_eq_nil_of_le (by omega : a.length ≤ a.length + i), List.nil_append]
    rw [List.drop_append_eq_append_drop]
    congr 2
    · omega
    · omega
  refine ⟨cl, ?_, q, ?_⟩
  · rw [hdrop p]
    have hz : p - m.length = 0 := by omega
    rw [hz, List.drop_zero]
    refine coreMatch_congr hc ?_
    rw [List.take_append_eq_append_take]
    have hz2 : cl - (m.drop p).length = 0 := by omega
    rw [hz2, List.take_zero, List.append_nil]
  · have he : a.length + p + cl + q = a.length + (p + cl + q) := by omega
    rw [he, hdrop (p + cl + q)]
    by_cases hq : p + cl + q < m.length
    · have hz : p + cl + q - m.length = 0 := by omega
      rw [hz, List.drop_zero]
      exact lookaheadTest_append hl
    · exfalso
      rw [List.drop_eq_nil_of_le (by omega)] at hl
      rw [lookaheadTest_nil] at hl
      cases hl

theorem findContentsMatch_padded_none {m a b : List Char}
    (h : findContentsMatch (a ++ m ++ b) = none) : findContentsMatch m = none := by
  cases hf : findContentsMatch m with
  | none => rfl
  | some ij =>
    exact absurd h
      (findContentsMatch_ne_none
        (fullMatchAt_padded (findContentsMatch_some_full (i := ij.1) (j := ij.2)
          (by rw [hf]))))

theorem NumShape_pad {a w b : List Char} (ha : ∀ c ∈ a, pySpace c = true)
    (hb : ∀ c ∈ b, pySpace c = true) (h : NumShape w) : NumShape (a ++ w ++ b) := by
  obtain ⟨s₁, ds, opt, s₂, rfl, hs₁, hds, hdig, hs₂, hopt⟩ := h
  refine ⟨a ++ s₁, ds, opt, s₂ ++ b, by simp [List.append_assoc], ?_, hds, hdig, ?_, hopt⟩
  · intro c hc
    rcases List.mem_append.mp hc with h1 | h2
    · exact ha c h1
    · exact hs₁ c h2
  · intro c hc
    rcases List.mem_append.mp hc with h1 | h2
    · exact hs₂ c h1
    · exact hb c h2

theorem mem_pyStrip {l : List Char} {c : Char} (h : c ∈ pyStrip l) : c ∈ l := by
  obtain ⟨a, b, hdec, _, _⟩ := pyStrip_decomp l
  rw [hdec]
  exact List.mem_append.mpr (Or.inl (List.mem_append.mpr (Or.inr h)))

/-! ### The full scrubbing pipeline

`read_and_clean_webpage` applies `_scrub_webpage_content_chars` first; its
output contains no newline (or any other control character), because
`re.sub(r'[\x00-\x1F\x7F-\x9F]', '', ...)` deletes them all.  The later
regex passes are therefore modelled on one-line text: the two
`SIGN IN TO EDIT` substitutions (the first requires the non-ASCII
characters `\uD83D`/`⋮`, which never survive the character scrub, so
it is the identity, `chatBubbleSub`), the `Contents\s*\[hide\]` block
removal, the MULTILINE standalone-number rule (whose `^`/`$` anchors hit
the whole string when it has no newline), the newline collapsing and the
final `strip()`. -/

def scrubL (l : List Char) : List Char :=
  pyStrip (collapseNewlines (numLineStep (contentsStep (signInStep
    (chatBubbleSub (scrub_webpage_content_chars l))))))

/-- `read_and_clean_webpage`'s cleaning applied to in-memory text. -/
def scrub (s : String) : String := String.mk (scrubL s.data)

theorem printable_ne_newline {c : Char} (h : printableAscii c = true) :
    ¬ c = '\n' := by
  intro he
  rw [he] at h
  simp [printableAscii] at h

theorem numLineStep_of_true {l : List Char} (h : numLineMatch l = true) :
    numLineStep l = [] := by
  unfold numLineStep
  simp [h]

theorem numLineStep_of_false {l : List Char} (h : numLineMatch l = false) :
    numLineStep l = l := by
  unfold numLineStep
  simp [h]

theorem scrubL_fixes {w : List Char}
    (hp : ∀ c ∈ w, printableAscii c = true)
    (hm : ¬ occursIn signInMarker w)
    (hc : findContentsMatch w = none)
    (hn : numLineMatch w = false)
    (hs : pyStrip w = w) :
    scrubL w = w := by
  have hnl : '\n' ∉ w := fun hmem => printable_ne_newline (hp _ hmem) rfl
  show pyStrip (collapseNewlines (numLineStep (contentsStep (signInStep
    (chatBubbleSub (scrub_webpage_content_chars w)))))) = w
  rw [show chatBubbleSub (scrub_webpage_content_chars w) =
    scrub_webpage_content_chars w from rfl]
  rw [scrub_webpage_content_chars_id hp]
  rw [signInStep_id_of_no_occur hm]
  rw [contentsStep_id_of_no_match hc]
  rw [numLineStep_of_false hn]
  rw [collapseNewlines_id_of_no_newline hnl]
  exact hs

theorem scrubL_idem (l : List Char) : scrubL (scrubL l) = scrubL l := by
  obtain ⟨u2t, hu2t⟩ :
      ∃ u, contentsStep (signInStep (scrub_webpage_content_chars l)) = u := ⟨_, rfl⟩
  have hexp : scrubL l = pyStrip (collapseNewlines (numLineStep u2t)) := by
    rw [← hu2t]
    rfl
  have hprint2 : ∀ c ∈ u2t, printableAscii c = true := by
    intro c hcm
    rw [← hu2t] at hcm
    exact scrub_webpage_content_chars_printable _ (mem_signInStep (mem_contentsStep hcm))
  have hnl0 : '\n' ∉ scrub_webpage_content_chars l := fun hmem =>
    printable_ne_newline (scrub_webpage_content_chars_printable _ hmem) rfl
  have hnl2 : '\n' ∉ u2t := fun hmem => printable_ne_newline (hprint2 _ hmem) rfl
  have hm1 : ¬ occursIn signInMarker (signInStep (scrub_webpage_content_chars l)) :=
    signInStep_no_occur_of_no_newline hnl0
  have hm2 : ¬ occursIn signInMarker u2t := by
    rw [← hu2t]
    exact contentsStep_no_marker _ _ le_rfl hm1
  have hcm2 : findContentsMatch u2t = none := by
    rw [← hu2t]
    exact contentsStep_no_match _ _ le_rfl
  cases hnum : numLineMatch u2t with
  | true =>
    have h1 : scrubL l = [] := by
      rw [hexp, numLineStep_of_true hnum]
      rfl
    rw [h1]
    rfl
  | false =>
    have hW : scrubL l = pyStrip u2t := by
      rw [hexp, numLineStep_of_false hnum, collapseNewlines_id_of_no_newline hnl2]
    obtain ⟨a, b, hdec, ha, hb⟩ := pyStrip_decomp u2t
    have hp' : ∀ c ∈ pyStrip u2t, printableAscii c = true := fun c hcm =>
      hprint2 c (mem_pyStrip hcm)
    have hm' : ¬ occursIn signInMarker (pyStrip u2t) := by
      intro hocc
      apply hm2
      rw [hdec]
      exact occursIn_of_inner hocc
    have hc' : findContentsMatch (pyStrip u2t) = none := by
      apply findContentsMatch_padded_none (a := a) (b := b)
      rw [← hdec]
      exact hcm2
    have hn' : numLineMatch (pyStrip u2t) = false := by
      cases hnw : numLineMatch (pyStrip u2t) with
      | false => rfl
      | true =>
        exfalso
        have hsh := numLineMatch_of_NumShape
          (NumShape_pad ha hb (NumShape_of_numLineMatch hnw))
        rw [← hdec] at hsh
        rw [hsh] at hnum
        cases hnum
    rw [hW, scrubL_fixes hp' hm' hc' hn' (pyStrip_idem u2t)]

theorem scrubL_printable (l : List Char) :
    ∀ c ∈ scrubL l, printableAscii c = true := by
  obtain ⟨u2t, hu2t⟩ :
      ∃ u, contentsStep (signInStep (scrub_webpage_content_chars l)) = u := ⟨_, rfl⟩
  have hexp : scrubL l = pyStrip (collapseNewlines (numLineStep u2t)) := by
    rw [← hu2t]
    rfl
  have hprint2 : ∀ c ∈ u2t, printableAscii c = true := by
    intro c hcm
    rw [← hu2t] at hcm
    exact scrub_webpage_content_chars_printable _ (mem_signInStep (mem_contentsStep hcm))
  have hnl2 : '\n' ∉ u2t := fun hmem => printable_ne_newline (hprint2 _ hmem) rfl
  intro c hcm
  rw [hexp] at hcm
  cases hnum : numLineMatch u2t with
  | true =>
    rw [numLineStep_of_true hnum] at hcm
    have hz : pyStrip (collapseNewlines ([] : List Char)) = [] := rfl
    rw [hz] at hcm
    cases hcm
  | false =>
    rw [numLineStep_of_false hnum, collapseNewlines_id_of_no_newline hnl2] at hcm
    exact hprint2 c (mem_pyStrip hcm)

/-- ASCII letter, upper or lower case. -/
def isAsciiLetter (c : Char) : Bool :=
  (65 ≤ c.toNat && c.toNat ≤ 90) || (97 ≤ c.toNat && c.toNat ≤ 122)

theorem findContentsMatch_none_of_no_bracket {l : List Char}
    (h : ∀ c ∈ l, ¬ c.toNat = 91) : findContentsMatch l = none := by
  cases hf : findContentsMatch l with
  | none => rfl
  | some ij =>
    exfalso
    obtain ⟨cl, hcm, -⟩ := findContentsMatch_some_full (i := ij.1) (j := ij.2)
      (by rw [hf])
    obtain ⟨a, sp, b, r, hdec, -, -, hb, -⟩ := coreMatch_decomp hcm
    obtain ⟨b0, b2, rfl, -, h91⟩ := hideW_head_not_space hb
    have hmem : b0 ∈ l.drop ij.1 := by
      rw [hdec]
      refine List.mem_append.mpr (Or.inl ?_)
      exact List.mem_append.mpr (Or.inr (List.mem_cons_self _ _))
    exact h b0 (List.mem_of_mem_drop hmem) h91

/-- C2: the cleaning pipeline of `read_and_clean_webpage` (aggressive
character scrubbing followed by the boilerplate substitutions, the
blank-line collapsing and the final `strip()`) is idempotent: applying it
to its own output returns that output unchanged. -/
theorem C2_scrub_idempotent (x : String) : scrub (scrub x) = scrub x := by
  show String.mk (scrubL (String.mk (scrubL x.data)).data) = String.mk (scrubL x.data)
  rw [show (String.mk (scrubL x.data)).data = scrubL x.data from rfl]
  rw [scrubL_idem]

/-- C10: every character of the scrubbed output is printable 7-bit ASCII
(code points 32 through 126); in particular no newline, tab or other
control character survives `read_and_clean_webpage`. -/
theorem C10_scrub_output_printable (x : String) :
    (scrub x).data.all printableAscii = true := by
  rw [List.all_eq_true]
  intro c hcm
  exact scrubL_printable x.data c hcm

/-- C3 counterexample: the string of digits `123` consists only of ASCII
letters, digits and spaces and contains no boilerplate marker (no
`SIGN IN TO EDIT` occurrence and no `Contents [hide]` match), and
trimming leaves it unchanged, yet the cleaning pipeline erases it
completely: the MULTILINE standalone-number rule deletes it. -/
theorem C3_digits_erased_counterexample :
    (∀ c ∈ ("123" : String).data, isAsciiDigit c = true) ∧
    findOcc signInMarker ("123" : String).data = none ∧
    findContentsMatch ("123" : String).data = none ∧
    String.mk (pyStrip ("123" : String).data) = "123" ∧
    scrub "123" = "" := by
  refine ⟨by decide, by decide, by decide, by decide, by decide⟩

/-- C3 (amended): for a string of ASCII letters, digits and spaces with
no `SIGN IN TO EDIT` occurrence and not of the standalone-number shape
`^\s*\d+(\.\d+)?\s*$`, the cleaning pipeline returns the string trimmed
of leading and trailing whitespace. -/
theorem C3_trim_amended (x : String)
    (halpha : ∀ c ∈ x.data,
      isAsciiLetter c = true ∨ isAsciiDigit c = true ∨ c = ' ')
    (hmark : findOcc signInMarker x.data = none)
    (hnum : numLineMatch x.data = false) :
    scrub x = String.mk (pyStrip x.data) := by
  have hp : ∀ c ∈ x.data, printableAscii c = true := by
    intro c hcm
    have hsp : (' ' : Char).toNat = 32 := by decide
    rcases halpha c hcm with h | h | h
    · rcases Bool.or_eq_true_iff.mp h with h2 | h2 <;>
        · rcases Bool.and_eq_true_iff.mp h2 with ⟨h3, h4⟩
          simp only [decide_eq_true_eq] at h3 h4
          unfold printableAscii
          simp only [Bool.and_eq_true, decide_eq_true_eq]
          omega
    · have := isAsciiDigit_iff.mp h
      unfold printableAscii
      simp only [Bool.and_eq_true, decide_eq_true_eq]
      omega
    · rw [h]
      decide
  have hnl : '\n' ∉ x.data := fun hmem => printable_ne_newline (hp _ hmem) rfl
  have hcm : findContentsMatch x.data = none := by
    apply findContentsMatch_none_of_no_bracket
    intro c hcm h91
    have hsp : (' ' : Char).toNat = 32 := by decide
    rcases halpha c hcm with h | h | h
    · rcases Bool.or_eq_true_iff.mp h with h2 | h2 <;>
        · rcases Bool.and_eq_true_iff.mp h2 with ⟨h3, h4⟩
          simp only [decide_eq_true_eq] at h3 h4
          omega
    · have := isAsciiDigit_iff.mp h
      omega
    · rw [h] at h91
      exact absurd h91 (by decide)
  show String.mk (scrubL x.data) = String.mk (pyStrip x.data)
  congr 1
  show pyStrip (collapseNewlines (numLineStep (contentsStep (signInStep
    (chatBubbleSub (scrub_webpage_content_chars x.data)))))) = pyStrip x.data
  rw [show chatBubbleSub (scrub_webpage_content_chars x.data) =
    scrub_webpage_content_chars x.data from rfl]
  rw [scrub_webpage_content_chars_id hp]
  rw [signInStep_id_of_no_occur (findOcc_none_iff.mp hmark)]
  rw [contentsStep_id_of_no_match hcm]
  rw [numLineStep_of_false hnum]
  rw [collapseNewlines_id_of_no_newline hnl]

/-- Witness for the amended trimming property at a concrete input. -/
theorem C3_trim_amended_witness :
    ((∀ c ∈ ("  Allied Fighter 42 " : String).data,
        isAsciiLetter c = true ∨ isAsciiDigit c = true ∨ c = ' ') ∧
      findOcc signInMarker ("  Allied Fighter 42 " : String).data = none ∧
      numLineMatch ("  Allied Fighter 42 " : String).data = false) ∧
    scrub "  Allied Fighter 42 " = "Allied Fighter 42" :=
  ⟨⟨by decide, by decide, by decide⟩,
    (C3_trim_amended _ (by decide) (by decide) (by decide)).trans (by decide)⟩

/-- C4: the spec says en- and em-dashes are replaced by a hyphen, but the
ASCII-encode step (step 1) runs first and deletes every non-ASCII
character, so the dashes are gone before the replace can see them: the
character scrub turns `a–b—c` into `abc`, not `a-b-c`. -/
theorem C4_dashes_deleted_not_replaced :
    scrub_webpage_content_chars ("a–b—c" : String).data = ("abc" : String).data ∧
    ¬ scrub_webpage_content_chars ("a–b—c" : String).data = ("a-b-c" : String).data := by
  refine ⟨by decide, by decide⟩

/-- C5: newlines are C0 control characters, so
`re.sub(r'[\x00-\x1F\x7F-\x9F]', '', ...)` in the character scrub deletes
them all before the `\n{3,}` collapsing step runs; lines separated by
three or more newlines come out joined together, not separated by two
newlines. -/
theorem C5_newline_runs_deleted_not_collapsed :
    scrub "lineA\n\n\n\nlineB" = "lineAlineB" ∧
    ¬ scrub "lineA\n\n\n\nlineB" = "lineA\n\nlineB" := by
  refine ⟨by decide, by decide⟩

/-! ### The record data model

`PineconeVector` is the TypedDict persisted by every script: an id, an
embedding vector, a metadata dictionary and the embedded text.  Metadata
values are heterogeneous: strings, integers, Python `None`, lists of
strings, and the nested tier tables mapping tier names to an integer or
`None`.  Dictionaries keep insertion order, as Python's do. -/

inductive MValue where
  | s (v : String)
  | i (v : Int)
  | null
  | strs (v : List String)
  | tiers (v : List (String × Option Int))
deriving DecidableEq

structure PineconeVector where
  id : String
  values : List Float
  metadata : List (String × MValue)
  text_content : String

/-- Python `str.lower()` on the ASCII item names used here. -/
def pyLower (s : String) : String := String.mk (s.data.map lowerAscii)

/-- Python `str.replace(' ', '_')`. -/
def pyReplaceSpace (s : String) : String :=
  String.mk (s.data.map (fun c => if c = ' ' then '_' else c))

/-- The id rule `f"{item_name.lower().replace(' ', '_')}_{suffix}"`. -/
def chunkId (item_name suffix : String) : String :=
  pyReplaceSpace (pyLower item_name) ++ "_" ++ suffix

/-! ### `parse_p51_webpage_content` (process_p51_data.py, lines 161-362)

The embedding call is abstracted as the `embed` argument; the function
ignores its `webpage_text` argument, every chunk being hardcoded. -/

def parse_p51_webpage_content (embed : String → List Float)
    (webpage_text : String) : List PineconeVector :=
  let item_name := "P-51 Mustang"
  let entity_type := "aircraft"
  let general_info_text := "The North American P-51 Mustang (referred to as simply the 'P-51 Mustang' in War Tycoon) is a WW2-era fighter. It is unlocked after purchasing it for $700,000 in the Plane Hangar at Rebirth 7. It has a seating capacity of 1, 1 hull, 1 weapon, 1 engine, and the utility 'Zoom In'."
  let full_overview_text := "The P-51 Mustang is regarded as one of the weakest and most vulnerable vehicles in the entire game due to having no flares. Since it's a plane, it does not have the luxury of having the maneuverability of helicopters to linger in their flares, avoid lock-on missiles, and counter anti-air vehicles such as the Pantsir S1 and Patriot AA, which are extremely effective against the P-51 and other planes. The P-51 Mustang is equipped with four 20mm cannons mounted to its wings, which function similarly to a machine gun due to their lower individual fire rate when compared to the rotary cannons mounted to other planes such as the F-4 Phantom, F-14 Tomcat, and F-16 Falcon to name a few. The P-51's 20mm cannons combined, however, deal significant damage-per-shot and are able to fire over a larger area with each cannon shooting in an alternating pattern to maximise fire rate and coverage. The P-51 Mustang also comes with a single .50 caliber machine gun mounted underneath the nose, which, although by itself has a limited effectiveness, when combined with the more powerful 20mm cannons, the .50 caliber provides extra attrition damage against enemy vehicles and exposed infantry. Much like its real-life counterpart, the P-51 Mustang serves as an effective plane for Close Air Support (CAS) roles. Its powerful Area of Effect (AoE) damage makes the platform well suited for engaging lightly armored vehicles and exposed infantry whilst also being able to finish off severely damaged tanks in specific circumstances.\nEvaluating this plane, if used correctly, the P-51 Mustang is a cheap, effective CAS aircraft but falters in other roles due to the divide between its skill requirements and effectiveness against other, more advanced planes.\nStats\nFirepower\nArmament\nDamage Per Shot (Non-Upgraded)\nDamage Per Shot (Tier 1)\nDamage Per Shot (Tier 2)\nDamage Per Shot (Tier 3)\n20mm Cannons\n[TBA]\n[TBA]\n[TBA]\n[TBA]\n.50 Caliber Machine Gun\n[TBA]\n[TBA]\n[TBA]\n[TBA]\nSpeed\nSpeed (Non-Upgraded)\nSpeed (Tier 1)\nSpeed (Tier 2)\nSpeed (Tier 3)\n205 MPH\n[TBA] MPH\n[TBA] MPH\n266 MPH\nHealth\nHealth (Non-Upgraded)\nHealth (Tier 1)\nHealth (Tier 2)\nHealth (Tier 3)\n650 HP\n715 HP\n780 HP\n845 HP\n"
  let concise_overview_text := "The P-51 Mustang is considered one of the weakest vehicles due to no flares, vulnerable to lock-on missiles and anti-air. However, it excels in Close Air Support (CAS) roles with powerful AoE damage against lightly armored vehicles and infantry. It's a cheap, effective CAS aircraft but struggles in other roles."
  let cannons_armament_text := "Equipped with four 20mm cannons mounted to its wings, which function similarly to a machine gun due to their lower individual fire rate compared to rotary cannons. Combined, they deal significant damage-per-shot and fire over a larger area with alternating patterns."
  let mg_armament_text := "Comes with a single .50 caliber machine gun mounted underneath the nose. Limited effectiveness by itself, but provides extra attrition damage when combined with 20mm cannons."
  let speed_text := "Speed (Minimum): 205 MPH, Speed (Maximum): 266 MPH. Tier 1 and Tier 2 speeds are [TBA]."
  let health_text := "Health (Minimum): 650 HP, Health (Maximum): 845 HP. Tier 1: 715 HP, Tier 2: 780 HP."
  let category_text := "The P-51 Mustang is classified under the 'Fighters' category of planes."
  [ { id := chunkId item_name "general_info",
      values := embed general_info_text,
      metadata := [("entity_type", .s entity_type), ("item_name", .s item_name),
        ("info_type", .s "general_info"), ("price", .i 700000),
        ("unlock_method", .s "Purchase"), ("unlock_location", .s "Plane Hangar"),
        ("unlock_rebirth_level", .i 7), ("seating_capacity", .i 1),
        ("hulls", .i 1), ("weapons_count", .i 1), ("engines_count", .i 1),
        ("utility", .strs ["Zoom In"])],
      text_content := general_info_text },
    { id := chunkId item_name "overview_full_text",
      values := embed full_overview_text,
      metadata := [("entity_type", .s entity_type), ("item_name", .s item_name),
        ("info_type", .s "overview_full_text"), ("section_title", .s "Overview")],
      text_content := full_overview_text },
    { id := chunkId item_name "overview_concise",
      values := embed concise_overview_text,
      metadata := [("entity_type", .s entity_type), ("item_name", .s item_name),
        ("info_type", .s "overview_summary"),
        ("strengths", .strs ["Close Air Support (CAS)", "Area of Effect (AoE) damage",
          "engaging lightly armored vehicles and exposed infantry",
          "finishing off severely damaged tanks", "cheap"]),
        ("weaknesses", .strs ["no flares", "vulnerable to lock-on missiles",
          "vulnerable to anti-air"]),
        ("role", .s "Close Air Support (CAS)")],
      text_content := concise_overview_text },
    { id := chunkId item_name "armament_20mm_cannons",
      values := embed cannons_armament_text,
      metadata := [("entity_type", .s entity_type), ("item_name", .s item_name),
        ("info_type", .s "armament"), ("weapon_type", .s "20mm Cannons"),
        ("count", .i 4), ("mount_location", .s "wings"),
        ("function_analogy", .s "machine gun"),
        ("damage_characteristic", .s "significant damage-per-shot (combined)")],
      text_content := cannons_armament_text },
    { id := chunkId item_name "armament_50cal_mg",
      values := embed mg_armament_text,
      metadata := [("entity_type", .s entity_type), ("item_name", .s item_name),
        ("info_type", .s "armament"), ("weapon_type", .s ".50 Caliber Machine Gun"),
        ("count", .i 1), ("mount_location", .s "underneath the nose"),
        ("effectiveness_alone", .s "limited"),
        ("combined_effectiveness", .s "extra attrition damage")],
      text_content := mg_armament_text },
    { id := chunkId item_name "stats_speed",
      values := embed speed_text,
      metadata := [("entity_type", .s entity_type), ("item_name", .s item_name),
        ("info_type", .s "stats"), ("stat_type", .s "Speed"), ("unit", .s "MPH"),
        ("tiers", .tiers [("Non-Upgraded", some 205), ("Tier 1", none),
          ("Tier 2", none), ("Tier 3", some 266)])],
      text_content := speed_text },
    { id := chunkId item_name "stats_health",
      values := embed health_text,
      metadata := [("entity_type", .s entity_type), ("item_name", .s item_name),
        ("info_type", .s "stats"), ("stat_type", .s "Health"), ("unit", .s "HP"),
        ("tiers", .tiers [("Non-Upgraded", some 650), ("Tier 1", some 715),
          ("Tier 2", some 780), ("Tier 3", some 845)])],
      text_content := health_text },
    { id := chunkId item_name "category_membership",
      values := embed category_text,
      metadata := [("entity_type", .s entity_type), ("item_name", .s item_name),
        ("info_type", .s "category_membership"), ("aircraft_category", .s "Fighters")],
      text_content := category_text } ]

/-! `parse_p51_webpage_content` of process_game_data.py (lines 104-268) is
the same function except that its overview chunk's text is a one-line
variant without the stats table; ids and metadata are identical. -/

def parse_p51_webpage_content_game (embed : String → List Float)
    (webpage_text : String) : List PineconeVector :=
  let item_name := "P-51 Mustang"
  let full_overview_text_game := "The P-51 Mustang is regarded as one of the weakest and most vulnerable vehicles in the entire game due to having no flares. Since it's a plane, it does not have the luxury of having the maneuverability of helicopters to linger in their flares, avoid lock-on missiles, and counter anti-air vehicles such as the Pantsir S1 and Patriot AA, which are extremely effective against the P-51 and other planes. The P-51 Mustang is equipped with four 20mm cannons mounted to its wings, which function similarly to a machine gun due to their lower individual fire rate when compared to the rotary cannons mounted to other planes such as the F-4 Phantom, F-14 Tomcat, and F-16 Falcon to name a few. The P-51's 20mm cannons combined, however, deal significant damage-per-shot and are able to fire over a larger area with each cannon shooting in an alternating pattern to maximise fire rate and coverage. The P-51 Mustang also comes with a single .50 caliber machine gun mounted underneath the nose, which, although by itself has a limited effectiveness, when combined with the more powerful 20mm cannons, the .50 caliber provides extra attrition damage against enemy vehicles and exposed infantry. Much like its real-life counterpart, the P-51 Mustang serves as an effective plane for Close Air Support (CAS) roles. Its powerful Area of Effect (AoE) damage makes the platform well suited for engaging lightly armored vehicles and exposed infantry whilst also being able to finish off severely damaged tanks in specific circumstances. Evaluating this plane, if used correctly, the P-51 Mustang is a cheap, effective CAS aircraft but falters in other roles due to the divide between its skill requirements and effectiveness against other, more advanced planes."
  (parse_p51_webpage_content embed webpage_text).map (fun r =>
    if r.id = chunkId item_name "overview_full_text" then
      { r with values := embed full_overview_text_game,
               text_content := full_overview_text_game }
    else r)

/-- C1: processing the P-51 Mustang entity (embedding call abstracted, for
any input text) yields exactly 8 records; their ids are the lowercased
item name with spaces (and only spaces - the hyphen survives) replaced by
underscores, plus the chunk suffix, the first being
`p-51_mustang_general_info`; their `info_type` metadata values are
general_info, overview_full_text, overview_summary, armament (twice),
stats (twice) and category_membership.  The same holds for the
process_game_data.py copy of the function. -/
theorem C1_p51_eight_records (embed : String → List Float) (text : String) :
    (parse_p51_webpage_content embed text).length = 8 ∧
    (parse_p51_webpage_content embed text).map (fun r => r.id) =
      ["p-51_mustang_general_info", "p-51_mustang_overview_full_text",
       "p-51_mustang_overview_concise", "p-51_mustang_armament_20mm_cannons",
       "p-51_mustang_armament_50cal_mg", "p-51_mustang_stats_speed",
       "p-51_mustang_stats_health", "p-51_mustang_category_membership"] ∧
    (parse_p51_webpage_content embed text).map
        (fun r => r.metadata.lookup "info_type") =
      [some (MValue.s "general_info"), some (MValue.s "overview_full_text"),
       some (MValue.s "overview_summary"), some (MValue.s "armament"),
       some (MValue.s "armament"), some (MValue.s "stats"),
       some (MValue.s "stats"), some (MValue.s "category_membership")] ∧
    (parse_p51_webpage_content_game embed text).map (fun r => r.id) =
      (parse_p51_webpage_content embed text).map (fun r => r.id) ∧
    (parse_p51_webpage_content_game embed text).map
        (fun r => r.metadata.lookup "info_type") =
      (parse_p51_webpage_content embed text).map
        (fun r => r.metadata.lookup "info_type") := by
  refine ⟨rfl, ?_, rfl, ?_, rfl⟩ <;> rfl

/-! ### `get_embedding` (process_p51_data.py, lines 17-49)

The OpenAI call is abstracted as the `api` argument (text, model,
dimensions); the model records the returned vector, how many API calls
were issued and whether the empty-input warning was printed. -/

structure EmbedResult where
  vector : List Float
  apiCalls : Nat
  warned : Bool

def get_embedding (api : String → String → Nat → List Float)
    (text model : String) (dimensions : Nat) : EmbedResult :=
  if text.data = [] ∨ pyStrip text.data = [] then
    { vector := [], apiCalls := 0, warned := true }
  else
    { vector := api text model dimensions, apiCalls := 1, warned := false }

/-- C6: on empty or all-whitespace input the embedding client warns and
returns the empty vector with no API call issued. -/
theorem C6_embed_empty_warns_no_call (api : String → String → Nat → List Float)
    (text model : String) (dimensions : Nat)
    (h : pyStrip text.data = []) :
    (get_embedding api text model dimensions).vector = [] ∧
    (get_embedding api text model dimensions).apiCalls = 0 ∧
    (get_embedding api text model dimensions).warned = true := by
  unfold get_embedding
  rw [if_pos (Or.inr h)]
  exact ⟨rfl, rfl, rfl⟩

/-- Witness: `get_embedding` on `""` and on `"   "` returns the empty
vector, makes no call and warns. -/
theorem C6_embed_empty_warns_no_call_witness :
    (pyStrip ("" : String).data = [] ∧
      (get_embedding (fun _ _ _ => []) "" "text-embedding-3-small" 1536).vector = [] ∧
      (get_embedding (fun _ _ _ => []) "" "text-embedding-3-small" 1536).apiCalls = 0 ∧
      (get_embedding (fun _ _ _ => []) "" "text-embedding-3-small" 1536).warned = true) ∧
    (pyStrip ("   " : String).data = [] ∧
      (get_embedding (fun _ _ _ => []) "   " "text-embedding-3-small" 1536).vector = [] ∧
      (get_embedding (fun _ _ _ => []) "   " "text-embedding-3-small" 1536).apiCalls = 0 ∧
      (get_embedding (fun _ _ _ => []) "   " "text-embedding-3-small" 1536).warned = true) :=
  ⟨⟨by decide,
    C6_embed_empty_warns_no_call _ "" "text-embedding-3-small" 1536 (by decide)⟩,
   ⟨by decide,
    C6_embed_empty_warns_no_call _ "   " "text-embedding-3-small" 1536 (by decide)⟩⟩

/-! ### The record sink

`save_vectors_to_jsonl` (lines 52-60) appends one JSON line per record to
the file; JSON encoding is abstracted as `dumps`.  The file is a list of
lines. -/

def save_vectors_to_jsonl (dumps : PineconeVector → String)
    (vectors : List PineconeVector) (file : List String) : List String :=
  file ++ vectors.map (fun v => dumps v)

/-- A record as displayed by the pretty printer: the `values` field is
either the vector or the redaction placeholder string. -/
inductive ValuesField where
  | vec (v : List Float)
  | redacted (s : String)

structure DisplayVector where
  id : String
  values : ValuesField
  metadata : List (String × MValue)
  text_content : String

/-- `vector_data["values"] = "[EMBEDDING_VECTOR_REMOVED_FOR_READABILITY]"`. -/
def redactRecord (r : PineconeVector) : DisplayVector :=
  { id := r.id, values := .redacted "[EMBEDDING_VECTOR_REMOVED_FOR_READABILITY]",
    metadata := r.metadata, text_content := r.text_content }

def displayRecord (r : PineconeVector) : DisplayVector :=
  { id := r.id, values := .vec r.values,
    metadata := r.metadata, text_content := r.text_content }

/-! `write_pretty_json_output` (lines 63-100): decode each line with
`loads`; on success append the (optionally redacted) record, on a decode
error print the error and the stripped line content and `break`.  The
result is the array written out plus the reported error, if any. -/

def write_pretty_json_output (loads : String → Except String PineconeVector)
    (remove_embeddings_for_display : Bool) (lines : List String) :
    List DisplayVector × Option (String × String) :=
  match lines with
  | [] => ([], none)
  | line :: rest =>
    match loads line with
    | .error e => ([], some (e, String.mk (pyStrip line.data)))
    | .ok v =>
      let d := if remove_embeddings_for_display then redactRecord v
               else displayRecord v
      let out := write_pretty_json_output loads remove_embeddings_for_display rest
      (d :: out.1, out.2)

/-- C7: one good line, then a malformed line: the pretty output holds
exactly the one decoded (redacted) record, the decode error is reported
with the bad line's stripped content, and no later line is processed. -/
theorem C7_render_stops_on_bad_line
    (loads : String → Except String PineconeVector)
    (good bad : String) (rest : List String) (r : PineconeVector) (e : String)
    (hg : loads good = Except.ok r) (hb : loads bad = Except.error e) :
    write_pretty_json_output loads true (good :: bad :: rest) =
      ([redactRecord r], some (e, String.mk (pyStrip bad.data))) := by
  show (match loads good with
    | .error e2 => ([], some (e2, String.mk (pyStrip good.data)))
    | .ok v =>
      let d := if true then redactRecord v else displayRecord v
      let out := write_pretty_json_output loads true (bad :: rest)
      (d :: out.1, out.2)) = _
  rw [hg]
  show (redactRecord r :: (write_pretty_json_output loads true (bad :: rest)).1,
    (write_pretty_json_output loads true (bad :: rest)).2) = _
  have hbad : write_pretty_json_output loads true (bad :: rest) =
      ([], some (e, String.mk (pyStrip bad.data))) := by
    show (match loads bad with
      | .error e2 => ([], some (e2, String.mk (pyStrip bad.data)))
      | .ok v =>
        let d := if true then redactRecord v else displayRecord v
        let out := write_pretty_json_output loads true rest
        (d :: out.1, out.2)) = _
    rw [hb]
  rw [hbad]

/-- A sample record with an empty vector, and a toy serializer pair for
the sink witnesses. -/
def sampleRec : PineconeVector :=
  { id := "sample_id", values := [],
    metadata := [("entity_type", .s "aircraft"), ("info_type", .s "stats")],
    text_content := "sample text" }

def dumps0 : PineconeVector → String := fun r => r.id

def loads0 : String → Except String PineconeVector := fun s =>
  if s = "sample_id" then .ok sampleRec
  else .error "Expecting value: line 1 column 1 (char 0)"

def badLine : String := "\x7bnot json"

/-- Witness: a valid line, then `\x7bnot json`, then a further line; the
output holds the one valid record and the reported error carries the bad
line's content. -/
theorem C7_render_stops_on_bad_line_witness :
    loads0 "sample_id" = Except.ok sampleRec ∧
    loads0 badLine = Except.error "Expecting value: line 1 column 1 (char 0)" ∧
    write_pretty_json_output loads0 true ["sample_id", badLine, "third line"] =
      ([redactRecord sampleRec],
        some ("Expecting value: line 1 column 1 (char 0)",
          String.mk (pyStrip badLine.data))) :=
  ⟨rfl, rfl,
    C7_render_stops_on_bad_line loads0 "sample_id" badLine ["third line"]
      sampleRec _ rfl rfl⟩

theorem write_pretty_all_ok (loads : String → Except String PineconeVector)
    (dumps : PineconeVector → String) :
    ∀ records : List PineconeVector,
      (∀ r ∈ records, loads (dumps r) = Except.ok r) →
      write_pretty_json_output loads true (records.map (fun v => dumps v)) =
        (records.map redactRecord, none) := by
  intro records
  induction records with
  | nil => intro _; rfl
  | cons r rest ih =>
    intro h
    show (match loads (dumps r) with
      | .error e2 => ([], some (e2, String.mk (pyStrip (dumps r).data)))
      | .ok v =>
        let d := if true then redactRecord v else displayRecord v
        let out := write_pretty_json_output loads true (rest.map (fun v => dumps v))
        (d :: out.1, out.2)) = _
    rw [h r (List.mem_cons_self _ _)]
    show (redactRecord r ::
        (write_pretty_json_output loads true (rest.map (fun v => dumps v))).1,
      (write_pretty_json_output loads true (rest.map (fun v => dumps v))).2) = _
    rw [ih (fun x hx => h x (List.mem_cons_of_mem _ hx))]
    rfl

/-- C8: appending N records to an empty file and pretty-rendering with
redaction yields exactly the N records, in order, each with `values`
replaced by the placeholder string and id, metadata and text unchanged,
and no decode error. -/
theorem C8_append_then_render_roundtrip
    (dumps : PineconeVector → String)
    (loads : String → Except String PineconeVector)
    (records : List PineconeVector)
    (hrt : ∀ r ∈ records, loads (dumps r) = Except.ok r) :
    write_pretty_json_output loads true (save_vectors_to_jsonl dumps records []) =
      (records.map redactRecord, none) ∧
    (records.map redactRecord).length = records.length ∧
    ∀ r ∈ records,
      (redactRecord r).values =
        ValuesField.redacted "[EMBEDDING_VECTOR_REMOVED_FOR_READABILITY]" ∧
      (redactRecord r).id = r.id ∧ (redactRecord r).metadata = r.metadata ∧
      (redactRecord r).text_content = r.text_content := by
  refine ⟨?_, List.length_map _ _, ?_⟩
  · show write_pretty_json_output loads true
      ([] ++ records.map (fun v => dumps v)) = _
    rw [List.nil_append]
    exact write_pretty_all_ok loads dumps records hrt
  · intro r _
    exact ⟨rfl, rfl, rfl, rfl⟩

/-- Witness: the round trip at one concrete record. -/
theorem C8_append_then_render_roundtrip_witness :
    (∀ r ∈ [sampleRec], loads0 (dumps0 r) = Except.ok r) ∧
    write_pretty_json_output loads0 true
        (save_vectors_to_jsonl dumps0 [sampleRec] []) =
      ([redactRecord sampleRec], none) :=
  ⟨fun r hr => by
      rw [List.mem_singleton] at hr
      rw [hr]
      rfl,
   by
    have h := C8_append_then_render_roundtrip dumps0 loads0 [sampleRec]
      (fun r hr => by
        rw [List.mem_singleton] at hr
        rw [hr]
        rfl)
    exact h.1⟩

/-! ### `parse_mig29_webpage_content` (rocess_mig29_data.py, lines 161-416)

The four `re.search` calls are abstracted as arguments: `giSearch`
returns the 14 capture groups of the big general-information pattern,
`ovSearch` and `histContentSearch` the single capture group of the
overview and history patterns, and `histSearch` models the first history
search, whose result the code never uses.  `int(...)` is modelled by
`pyInt` returning `none` where Python would raise `ValueError`, so the
builder returns `some` records exactly when no conversion raises. -/

structure GiMatch where
  g1 : String
  g2 : String
  g3 : String
  g4 : String
  g5 : String
  g6 : String
  g7 : String
  g8 : String
  g9 : String
  g10 : String
  g11 : String
  g12 : String
  g13 : String
  g14 : String

/-- Python `str.replace(",", "")`. -/
def pyReplaceComma (s : String) : String :=
  String.mk (s.data.filter (fun c => !(c = ',')))

/-- Python `str.strip()` on strings. -/
def pyStripS (s : String) : String := String.mk (pyStrip s.data)

/-- Python `str.isdigit()` over ASCII. -/
def pyIsDigit (s : String) : Bool :=
  !s.data.isEmpty && s.data.all isAsciiDigit

def digitsToNat (l : List Char) : Nat :=
  l.foldl (fun a c => 10 * a + (c.toNat - 48)) 0

/-- Python `int(s)`: optional sign around a digit run after stripping
whitespace; `none` where `int` would raise. -/
def pyInt (s : String) : Option Int :=
  match pyStrip s.data with
  | '-' :: ds =>
      if !ds.isEmpty && ds.all isAsciiDigit then some (-(digitsToNat ds : Int))
      else none
  | '+' :: ds =>
      if !ds.isEmpty && ds.all isAsciiDigit then some (digitsToNat ds)
      else none
  | ds =>
      if !ds.isEmpty && ds.all isAsciiDigit then some (digitsToNat ds)
      else none

def parse_mig29_webpage_content (embed : String → List Float)
    (giSearch : String → Option GiMatch)
    (ovSearch : String → Option String)
    (histSearch : String → Option String)
    (histContentSearch : String → Option String)
    (webpage_text : String) : Option (List PineconeVector) :=
  let item_name := "MiG-29 Fulcrum"
  let entity_type := "aircraft"
  let general_info_match := giSearch webpage_text
  let general_info_text_raw := "The Mikoyan-Gurevich MiG-29 Fulcrum is a Soviet-Era multi-role fighter jet used primarily by the Russian Air Force. It is unlocked after completing Operation Aerial Ace and can be found in the Plane Hangar after reaching Rebirth 7. It has a price of $850,000, seating capacity of 2, 1 hull, 2 weapons, 1 engine. Its armament includes 1x 30mm Autocannon and 6x Air-to-Air Missiles. Utilities include Flares, 2x Ejection Seats, and Zoom In."
  let price_str := match general_info_match with
    | some m => pyReplaceComma m.g1
    | none => "850000"
  let min_speed_val := match general_info_match with
    | some m => pyStripS m.g2
    | none => "275"
  let max_speed_val := match general_info_match with
    | some m => pyStripS m.g3
    | none => "[TBA]"
  let min_health_val := match general_info_match with
    | some m => pyStripS m.g4
    | none => "680"
  let max_health_val := match general_info_match with
    | some m => pyStripS m.g5
    | none => "884"
  let armament1 := match general_info_match with
    | some m => pyStripS m.g6
    | none => "1x 30mm Autocannon"
  let armament2 := match general_info_match with
    | some m => pyStripS m.g7
    | none => "6x Air-to-Air Missiles"
  let utility1 := match general_info_match with
    | some m => pyStripS m.g8
    | none => "Flares"
  let utility2 := match general_info_match with
    | some m => pyStripS m.g9
    | none => "2x Ejection Seats"
  let utility3 := match general_info_match with
    | some m => pyStripS m.g10
    | none => "Zoom In"
  let seating := match general_info_match with
    | some m => pyStripS m.g11
    | none => "2"
  let hulls := match general_info_match with
    | some m => pyStripS m.g12
    | none => "1"
  let weapons := match general_info_match with
    | some m => pyStripS m.g13
    | none => "2"
  let engines := match general_info_match with
    | some m => pyStripS m.g14
    | none => "1"
  let overview_text_match := ovSearch webpage_text
  let full_overview_text := match overview_text_match with
    | some g => pyStripS g
    | none => ""
  let concise_overview_text := "The MiG-29 Fulcrum is an early-game multi-role fighter jet known for its relatively simple unlock requirements (Operation Aerial Ace) and strong combat capabilities despite being an early-game option. It features a potent 30mm autocannon effective for base shield destruction and air-to-ground engagements, and 6 air-to-air missiles which can be used to bait enemy flares. Unlike the P-51, it has flares, making it less vulnerable to lock-on missiles. While not as agile as some modern jets at higher speeds, it excels in close-range dogfights at slower speeds. It's a significant upgrade from the P-51 Mustang."
  let autocannon_text := "The MiG-29 possesses a potent 30mm rotary cannon mounted to the right of the cockpit's underside near the nose. This rotary cannon has a notably lower DPS (Damage Per Second) when compared to the likes of the 20mm rotary cannons mounted on the F-4 Phantom, F-14 Tomcat, and F-16 Falcon. As a direct trade-off to this lowered fire rate, the MiG-29's 30mm rotary cannon has a higher damage-per-shot, allowing it to fulfill roles in base shield destruction and air-to-ground engagements."
  let missiles_text := "The MiG-29 also possesses a compliment of 6 air-to-air missiles for use against enemy aerial targets, however, the trade-off to the fighter's increased munitions payload is the smaller damage-per-hit of each missile. This means that the pilot of the MiG-29 needs to fire more missiles against an enemy target to severely cripple or destroy it, however, having access to so many missiles allows pilots to \"bait\" enemy aircraft into dispensing their flares prematurely, allowing MiG-29 pilots to swiftly launch the remainder of their payload and deal significant damage."
  let speed_text := "Speed (Non-Upgraded): 275 MPH, Speed (Tier 1): [TBA] MPH, Speed (Tier 2): [TBA] MPH, Speed (Tier 3): [TBA] MPH."
  let health_text := "Health (Non-Upgraded): 680 HP, Health (Tier 1): 748 HP, Health (Tier 2): 816 HP, Health (Tier 3): 884 HP."
  let _history_text_match := histSearch webpage_text
  let history_content_match := histContentSearch webpage_text
  let history_text := match history_content_match with
    | some g => pyStripS g
    | none => ""
  let category_text := "The MiG-29 Fulcrum is classified under the 'Fighter Jets' category of planes."
  match pyInt seating, pyInt hulls, pyInt weapons, pyInt engines with
  | some seatingN, some hullsN, some weaponsN, some enginesN =>
    some
      [ { id := chunkId item_name "general_info",
          values := embed general_info_text_raw,
          metadata := [("entity_type", .s entity_type), ("item_name", .s item_name),
            ("info_type", .s "general_info"),
            ("price", if pyIsDigit price_str then
              MValue.i (digitsToNat price_str.data) else MValue.null),
            ("unlock_method", .s "Operation Aerial Ace"),
            ("unlock_details", .s "Kill 30 enemy players with any plane"),
            ("hangar_access_rebirth_level", .i 7),
            ("seating_capacity", .i seatingN), ("hulls", .i hullsN),
            ("weapons_count", .i weaponsN), ("engines_count", .i enginesN),
            ("utility", .strs [utility1, utility2, utility3]),
            ("initial_armament_summary", .strs [armament1, armament2]),
            ("speed_min_display", .s min_speed_val),
            ("speed_max_display", .s max_speed_val),
            ("health_min_display", .s min_health_val),
            ("health_max_display", .s max_health_val)],
          text_content := general_info_text_raw },
        { id := chunkId item_name "overview_full_text",
          values := embed full_overview_text,
          metadata := [("entity_type", .s entity_type), ("item_name", .s item_name),
            ("info_type", .s "overview_full_text"), ("section_title", .s "Overview")],
          text_content := full_overview_text },
        { id := chunkId item_name "overview_concise",
          values := embed concise_overview_text,
          metadata := [("entity_type", .s entity_type), ("item_name", .s item_name),
            ("info_type", .s "overview_summary"),
            ("strengths", .strs ["Early-game fighter", "Simple unlock",
              "Potent 30mm autocannon", "High damage-per-shot (autocannon)",
              "Effective for base shield destruction", "Good for air-to-ground",
              "6 air-to-air missiles", "Can bait enemy flares",
              "Has flares (unlike P-51)", "Smaller turn radius at slower speeds",
              "Good for close-range dogfights", "Significant upgrade over P-51"]),
            ("weaknesses", .strs ["Lower DPS (autocannon) compared to 20mm rotary cannons",
              "Smaller damage-per-hit (missiles)",
              "Requires more missiles to cripple/destroy",
              "Jets cannot linger in flares like helicopters",
              "More vulnerable to lock-on missiles (Stingers, Pantsir S1)",
              "Not as easy to handle as F-14 Tomcat",
              "Larger turn radius at higher speeds",
              "May falter against other, more modern planes"]),
            ("role", .s "Early-game multi-role fighter"),
            ("playstyle_notes", .s "Use autocannon for ground/shields, missiles for air-to-air (including baiting flares), leverage slow-speed maneuverability in dogfights.")],
          text_content := concise_overview_text },
        { id := chunkId item_name "armament_30mm_autocannon",
          values := embed autocannon_text,
          metadata := [("entity_type", .s entity_type), ("item_name", .s item_name),
            ("info_type", .s "armament"), ("weapon_type", .s "30mm Autocannon"),
            ("count", .i 1),
            ("mount_location", .s "right of cockpit's underside near nose"),
            ("dps_comparison", .s "lower DPS than 20mm rotary cannons"),
            ("damage_characteristic", .s "higher damage-per-shot"),
            ("roles", .strs ["base shield destruction", "air-to-ground engagements"])],
          text_content := autocannon_text },
        { id := chunkId item_name "armament_air_to_air_missiles",
          values := embed missiles_text,
          metadata := [("entity_type", .s entity_type), ("item_name", .s item_name),
            ("info_type", .s "armament"), ("weapon_type", .s "Air-to-Air Missiles"),
            ("count", .i 6),
            ("damage_characteristic", .s "smaller damage-per-hit"),
            ("usage_strategy", .s "can bait enemy aircraft into dispensing flares prematurely")],
          text_content := missiles_text },
        { id := chunkId item_name "stats_speed",
          values := embed speed_text,
          metadata := [("entity_type", .s entity_type), ("item_name", .s item_name),
            ("info_type", .s "stats"), ("stat_type", .s "Speed"), ("unit", .s "MPH"),
            ("tiers", .tiers [("Non-Upgraded", some 275), ("Tier 1", none),
              ("Tier 2", none), ("Tier 3", none)])],
          text_content := speed_text },
        { id := chunkId item_name "stats_health",
          values := embed health_text,
          metadata := [("entity_type", .s entity_type), ("item_name", .s item_name),
            ("info_type", .s "stats"), ("stat_type", .s "Health"), ("unit", .s "HP"),
            ("tiers", .tiers [("Non-Upgraded", some 680), ("Tier 1", some 748),
              ("Tier 2", some 816), ("Tier 3", some 884)])],
          text_content := health_text },
        { id := chunkId item_name "history",
          values := embed history_text,
          metadata := [("entity_type", .s entity_type), ("item_name", .s item_name),
            ("info_type", .s "history"), ("section_title", .s "History"),
            ("period", .strs ["Vietnam War", "Cold War", "1960s", "1970s", "1980s"]),
            ("key_events", .strs ["F-X program", "PFI program", "LPFI program",
              "Maiden flight 1977"])],
          text_content := history_text },
        { id := chunkId item_name "category_membership",
          values := embed category_text,
          metadata := [("entity_type", .s entity_type), ("item_name", .s item_name),
            ("info_type", .s "category_membership"),
            ("aircraft_category", .s "Fighter Jets")],
          text_content := category_text } ]
  | _, _, _, _ => none

/-- C9: when every pattern search fails (all four return no match), the
MiG-29 builder does not raise: it returns its full sequence of 9 records,
every extracted field replaced by its fallback literal - price 850000,
seating capacity 2, 1 hull, 2 weapons, 1 engine, the listed armament and
utility strings, and the empty string as overview and history text. -/
theorem C9_mig29_fallbacks_on_no_match (embed : String → List Float)
    (giSearch : String → Option GiMatch)
    (ovSearch histSearch histContentSearch : String → Option String)
    (text : String)
    (hgi : giSearch text = none) (hov : ovSearch text = none)
    (hh1 : histSearch text = none) (hh2 : histContentSearch text = none) :
    ∃ vs, parse_mig29_webpage_content embed giSearch ovSearch histSearch
        histContentSearch text = some vs ∧
      vs.length = 9 ∧
      vs.map (fun r => r.metadata.lookup "info_type") =
        [some (MValue.s "general_info"), some (MValue.s "overview_full_text"),
         some (MValue.s "overview_summary"), some (MValue.s "armament"),
         some (MValue.s "armament"), some (MValue.s "stats"),
         some (MValue.s "stats"), some (MValue.s "history"),
         some (MValue.s "category_membership")] ∧
      vs.map (fun r => r.metadata.lookup "price") =
        [some (MValue.i 850000), none, none, none, none, none, none, none, none] ∧
      vs.map (fun r => r.metadata.lookup "seating_capacity") =
        [some (MValue.i 2), none, none, none, none, none, none, none, none] ∧
      vs.map (fun r => r.metadata.lookup "hulls") =
        [some (MValue.i 1), none, none, none, none, none, none, none, none] ∧
      vs.map (fun r => r.metadata.lookup "weapons_count") =
        [some (MValue.i 2), none, none, none, none, none, none, none, none] ∧
      vs.map (fun r => r.metadata.lookup "engines_count") =
        [some (MValue.i 1), none, none, none, none, none, none, none, none] ∧
      vs.map (fun r => r.metadata.lookup "utility") =
        [some (MValue.strs ["Flares", "2x Ejection Seats", "Zoom In"]),
         none, none, none, none, none, none, none, none] ∧
      vs.map (fun r => r.metadata.lookup "initial_armament_summary") =
        [some (MValue.strs ["1x 30mm Autocannon", "6x Air-to-Air Missiles"]),
         none, none, none, none, none, none, none, none] ∧
      (vs.map (fun r => r.metadata.lookup "speed_min_display")).head? =
        some (some (MValue.s "275")) ∧
      (vs.map (fun r => r.metadata.lookup "health_min_display")).head? =
        some (some (MValue.s "680")) ∧
      (vs.map (fun r => r.text_content)).get? 1 = some "" ∧
      (vs.map (fun r => r.text_content)).get? 7 = some "" := by
  unfold parse_mig29_webpage_content
  rw [hgi, hov, hh1, hh2]
  exact ⟨_, rfl, rfl, rfl, rfl, rfl, rfl, rfl, rfl, rfl, rfl, rfl, rfl, rfl, rfl⟩

/-- Witness: the fallback path at searches that always fail. -/
theorem C9_mig29_fallbacks_on_no_match_witness :
    ((fun _ : String => (none : Option GiMatch)) "" = none) ∧
    ∃ vs, parse_mig29_webpage_content (fun _ => [])
        (fun _ => none) (fun _ => none) (fun _ => none) (fun _ => none) "" =
          some vs ∧ vs.length = 9 :=
  ⟨rfl, by
    obtain ⟨vs, h1, h2, -⟩ := C9_mig29_fallbacks_on_no_match (fun _ => [])
      (fun _ => none) (fun _ => none) (fun _ => none) (fun _ => none) ""
      rfl rfl rfl rfl
    exact ⟨vs, h1, h2⟩⟩

end GameDataProcessor
